import Mathlib

/-!
# FluidNC usermod (usermods/FluidNC/usermod_fluidnc.h)

A shallow embedding of the `FluidNcUsermod` class: the status-line parse and
preset dispatch of `loop()`, the position overlay of `handleOverlayDraw()`, the
connection loop of `connected()` and the configuration reader `readFromConfig()`.

Conventions of the embedding.

* An Arduino `String` is a `List Char`; it holds no NUL character.
* `int` and `long` are 32 bits wide on the targets of this firmware; they are
  carried as `Int` and every arithmetic result is brought back into range with
  `wrapI32` (two's complement). `unsigned int` and `unsigned long` are carried
  as `Nat`, a conversion to unsigned is `toU32`.
* `float` is IEEE 754 binary32; its three operations in the usermod (conversion
  from an integer, division, multiplication) are carried out on exact integers
  and rounded to 24 significant bits, to nearest with ties to even.
* Output on `Serial` is a log and is left out.
* What the sources at hand leave to the build target (the `map` of the Arduino
  core, the conversion to `int` of a `float` that is no `int`) is a parameter of
  the overlay, a `Target`; the statements hold for every target unless they name
  one.
-/

namespace FluidNC

/-! ## Machine integers -/

/-- Two's complement reduction of an integer to the range of a 32-bit `int`: the
value modulo `2^32`, read as negative from `2^31` on. -/
def wrapI32 (x : Int) : Int :=
  if x % 4294967296 < 2147483648 then x % 4294967296 else x % 4294967296 - 4294967296

/-- Conversion of an integer to a 32-bit `unsigned int`. -/
def toU32 (x : Int) : Nat := (x % 4294967296).toNat

/-! ## The Arduino `String` operations used by the usermod -/

/-- Offset of the first occurrence of the character `c` in `s`, if there is one. -/
def findChar (c : Char) : List Char → Option Nat
  | [] => none
  | x :: xs => if x = c then some 0 else (findChar c xs).map (fun k => k + 1)

/-- Modelled from the spec: the Arduino core's `String::indexOf(needle, fromIndex)`
(not part of this repository's sources) for a one-character needle, as used in
"Locate the first `|`" and "Locate the next `|` after the first". It answers -1
when `fromIndex` is not below the length or when nothing is found, and otherwise
the offset of the first occurrence at or after `fromIndex`. -/
def indexOfFrom (s : List Char) (c : Char) (fromIndex : Nat) : Int :=
  if s.length ≤ fromIndex then -1
  else
    match findChar c (s.drop fromIndex) with
    | some k => ((fromIndex + k : Nat) : Int)
    | none => -1

/-- The one-argument `String::indexOf(needle)`, which is `indexOf(needle, 0)`. -/
def indexOf (s : List Char) (c : Char) : Int := indexOfFrom s c 0

/-- Modelled from the spec: the Arduino core's
`String::substring(unsigned left, unsigned right)` (not part of this repository's
sources), "the substring between" two offsets: the two offsets are swapped when
`left > right`, the result is empty when `left` is not below the length, and
`right` is cut down to the length. -/
def substring (s : List Char) (left right : Nat) : List Char :=
  let l := if left > right then right else left
  let r := if left > right then left else right
  if s.length ≤ l then []
  else
    let r := if r > s.length then s.length else r
    (s.take r).drop l

/-- The method `String::startsWith(s2)` of the Arduino core: `s2` is an initial segment
of `s`. -/
def startsWith (s s2 : List Char) : Bool := s2.isPrefixOf s

/-- White space in the sense of the C library's `isspace`. -/
def isSpace (c : Char) : Bool :=
  c = ' ' || c = '\t' || c = '\n' || c.toNat = 11 || c.toNat = 12 || c = '\r'

/-- Value of the longest run of decimal digits at the head of the list, continuing
the accumulator `acc`. -/
def digitsValue : List Char → Nat → Nat
  | [], acc => acc
  | c :: cs, acc =>
    if c.isDigit then digitsValue cs (10 * acc + (c.toNat - 48)) else acc

/-- Saturation to the range of a 32-bit `long`, what the C library's `strtol`
returns for a numeral out of range. -/
def clampI32 (x : Int) : Int :=
  if x < -2147483648 then -2147483648 else if x > 2147483647 then 2147483647 else x

/-- Modelled from the spec: the Arduino core's `String::toInt()` (not part of this
repository's sources), "parse it as an integer": the C library's `atol`, which
skips leading white space, reads an optional sign and then the longest run of
decimal digits, and answers 0 when there is no digit. -/
def toInt (s : List Char) : Int :=
  match s.dropWhile isSpace with
  | '-' :: rest => clampI32 (-(digitsValue rest 0 : Int))
  | '+' :: rest => clampI32 (digitsValue rest 0 : Int)
  | rest => clampI32 (digitsValue rest 0 : Int)

/-! ## The Arduino arithmetic helpers -/

/-- The Arduino `constrain(amt, low, high)` macro
`((amt)<(low)?(low):((amt)>(high)?(high):(amt)))`, at the types of its one use:
`amt` and `low` are `int`, `high` is `unsigned int`, so the second comparison is
made on unsigned values. -/
def constrain (amt low : Int) (high : Nat) : Int :=
  if amt < low then low else if toU32 amt > high then wrapI32 high else amt

/-- The two ways in which the Arduino cores round the quotient of `map`: toward
zero, or to the nearest integer. -/
inductive Rescale where
  | truncating
  | nearest
  deriving DecidableEq, Repr

/-- The dividend of the division in `map` for the product `n = delta * rise` and the
divisor `d`: the product itself, or the product with half of the divisor added. -/
def Rescale.numerator : Rescale → Int → Int → Int
  | .truncating, n, _ => n
  | .nearest, n, d => n + Int.tdiv d 2

/-- The quotient of `map` in exact arithmetic, C's division (toward zero) of the
dividend by the divisor. -/
def Rescale.quotient (r : Rescale) (n d : Int) : Int := Int.tdiv (r.numerator n d) d

/-- Modelled from the spec: the arithmetic of the Arduino
`map(x, in_min, in_max, out_min, out_max)` (not part of this repository's sources)
for a range `in_max - in_min` that is not zero, "linearly rescale" from the domain
`[in_min, in_max]` to the range `[out_min, out_max]`. The specification does not
say how the quotient is rounded, and the cores differ: on `long`,
`(x - in_min) * (out_max - out_min) / (in_max - in_min) + out_min` with C's
division (`Rescale.truncating`), or the same with half of the divisor added to the
product before the division (`Rescale.nearest`; Scenario A of the specification,
base pixel 50, is of this kind). -/
def rescale (r : Rescale) (x in_min in_max out_min out_max : Int) : Int :=
  let divisor := wrapI32 (in_max - in_min)
  let dividend := wrapI32 (out_max - out_min)
  let delta := wrapI32 (x - in_min)
  match r with
  | .truncating => wrapI32 (Int.tdiv (wrapI32 (delta * dividend)) divisor + out_min)
  | .nearest =>
    wrapI32 (Int.tdiv (wrapI32 (wrapI32 (delta * dividend) + Int.tdiv divisor 2)) divisor
      + out_min)

/-- Modelled from the spec: the WLED colour constructor `RGBW32(r,g,b,w)` (declared
in WLED's headers, not part of the sources at hand), which packs the four bytes
as `w:r:g:b`; with all four at 255 it is the "fully-saturated white pixel". -/
def RGBW32 (r g b w : Nat) : Nat :=
  (w % 256) * 16777216 + (r % 256) * 65536 + (g % 256) * 256 + b % 256

/-! ## Single-precision arithmetic -/

/-- The number of binary digits of `n`, found with at most `fuel` halvings. -/
def bitLengthAux : Nat → Nat → Nat
  | 0, _ => 0
  | fuel + 1, n => if n = 0 then 0 else bitLengthAux fuel (n / 2) + 1

/-- The number of binary digits of `n`: 0 for 0, and otherwise the `k` with
`2^(k-1) ≤ n < 2^k`. -/
def bitLength (n : Nat) : Nat := bitLengthAux n n

/-- The fraction `n / d` rounded to the nearest integer, a tie going to the even
neighbour: the rounding of IEEE 754 arithmetic in its default mode. -/
def roundQuotient (n d : Nat) : Nat :=
  if 2 * (n % d) > d ∨ (2 * (n % d) = d ∧ (n / d) % 2 = 1) then n / d + 1 else n / d

/-- The fraction `n / d` divided by `2^e`, rounded to the nearest integer. -/
def roundScaled (n d : Nat) (e : Int) : Nat :=
  if 0 ≤ e then roundQuotient n (d * 2 ^ e.toNat) else roundQuotient (n * 2 ^ (-e).toNat) d

/-- The exponent `e` with `2^23 ≤ n / (d * 2^e) < 2^24`, for positive `n` and `d`.
From the numbers of binary digits, `n / d` lies between `2^(e0 + 23)` and
`2^(e0 + 25)` for `e0 = bitLength n - bitLength d - 24`, so `e` is `e0` or
`e0 + 1`. -/
def exponent24 (n d : Nat) : Int :=
  let e0 : Int := (bitLength n : Int) - (bitLength d : Int) - 24
  if (if 0 ≤ e0 then d * 2 ^ e0.toNat else d) * 16777216
      ≤ (if 0 ≤ e0 then n else n * 2 ^ (-e0).toNat) then e0 + 1
  else e0

/-- A value of the C type `float`, IEEE 754 binary32, as the usermod can meet it:
the finite number `mantissa * 2^exponent` (with `2^23 ≤ |mantissa| < 2^24`, or
zero with mantissa 0), an infinity, or a NaN. The exponent is not bounded: the
operands of the usermod are conversions of 32-bit integers, and the magnitudes of
their quotients and products, from `2^-31` to `2^63`, are far inside the range of
the normal numbers of binary32, where the 24 bits are all there is to the
rounding. The sign of a zero is not kept: the one zero that is divided by is the
conversion of the integer 0, a positive zero. -/
inductive Binary32 where
  | finite (mantissa exponent : Int)
  | infinity (negative : Bool)
  | nan
  deriving DecidableEq, Repr

/-- The binary32 nearest to the number `± (n / d) * 2^shift` (`d` positive): the
fraction is brought to 24 significant bits and rounded, a tie going to the even
mantissa; when the rounding carries into a 25th bit the exponent goes up by one. -/
def Binary32.round (negative : Bool) (n d : Nat) (shift : Int) : Binary32 :=
  if n = 0 then .finite 0 0
  else if roundScaled n d (exponent24 n d) = 16777216 then
    .finite (if negative then -8388608 else 8388608) (exponent24 n d + 1 + shift)
  else
    .finite
      (if negative then -(roundScaled n d (exponent24 n d) : Int)
        else (roundScaled n d (exponent24 n d) : Int))
      (exponent24 n d + shift)

/-- The conversion `(float)z` of an integer (an `int` or an `unsigned int`). -/
def Binary32.ofInt (z : Int) : Binary32 := Binary32.round (decide (z < 0)) z.natAbs 1 0

/-- The division of two `float` values. A finite number that is not zero, divided
by zero, gives an infinity, and zero divided by zero gives a NaN: the division
does not trap. -/
def Binary32.div : Binary32 → Binary32 → Binary32
  | .finite m1 e1, .finite m2 e2 =>
    if m2 = 0 then (if m1 = 0 then .nan else .infinity (decide (m1 < 0)))
    else Binary32.round (decide (m1 < 0) != decide (m2 < 0)) m1.natAbs m2.natAbs (e1 - e2)
  | .finite _ _, .infinity _ => .finite 0 0
  | .infinity n, .finite m _ => .infinity (n != decide (m < 0))
  | _, _ => .nan

/-- The multiplication of two `float` values. An infinity times zero gives a NaN. -/
def Binary32.mul : Binary32 → Binary32 → Binary32
  | .finite m1 e1, .finite m2 e2 =>
    Binary32.round (decide (m1 * m2 < 0)) (m1 * m2).natAbs 1 (e1 + e2)
  | .infinity n, .finite m _ => if m = 0 then .nan else .infinity (n != decide (m < 0))
  | .finite m _, .infinity n => if m = 0 then .nan else .infinity (n != decide (m < 0))
  | .infinity n1, .infinity n2 => .infinity (n1 != n2)
  | _, _ => .nan

/-- The integral part of a `float`, the fraction dropped (toward zero), when the
value is finite and the integral part is within the range of a 32-bit `int`. -/
def Binary32.truncate : Binary32 → Option Int
  | .finite m e =>
    let z := if 0 ≤ e then m * 2 ^ e.toNat else Int.tdiv m (2 ^ (-e).toNat)
    if -2147483648 ≤ z ∧ z < 2147483648 then some z else none
  | _ => none

/-- The value of the expression `((float)widthX/(float)ledStripLength) * ledCount` of
line 242: `widthX` is an `unsigned int`, `ledStripLength` and `ledCount` are `int`;
the quotient is a `float`, `ledCount` is converted to `float` for the product, and
each of the three conversions, the division and the multiplication rounds. -/
def machinePixelsFloat (widthX : Nat) (ledStripLength ledCount : Int) : Binary32 :=
  ((Binary32.ofInt widthX).div (Binary32.ofInt ledStripLength)).mul (Binary32.ofInt ledCount)

/-! ## The build target -/

/-- What the build target settles and neither the sources at hand nor the
specification say. -/
structure Target where
  /-- The rounding of the quotient in the core's `map`. -/
  rescale : Rescale
  /-- The answer of the core's `map` when `in_max - in_min` is zero, as a function of
  the five arguments. -/
  emptyRange : Int → Int → Int → Int → Int → Int
  /-- The result of converting to `int` a `float` whose integral part is no `int`
  (an infinity, a NaN, a value beyond the range), which C leaves undefined. -/
  outOfRange : Binary32 → Int

/-- Modelled from the spec: the Arduino `map(x, in_min, in_max, out_min, out_max)`
(not part of this repository's sources), "linearly rescale". For a range
`in_max - in_min` that is not zero it is the arithmetic of `rescale`, with the
rounding of the target. For a range that is zero the specification says nothing
(the cores for the ESP8266 and the ESP32 test for it and answer -1 without
dividing): the call is taken to return, with the answer of the target. -/
def map (tg : Target) (x in_min in_max out_min out_max : Int) : Int :=
  if wrapI32 (in_max - in_min) = 0 then wrapI32 (tg.emptyRange x in_min in_max out_min out_max)
  else rescale tg.rescale x in_min in_max out_min out_max

/-- The conversion `(int)f` of a `float`: the integral part when that is an `int`,
and otherwise what the target gives. -/
def Binary32.toInt (tg : Target) (f : Binary32) : Int :=
  match f.truncate with
  | some z => z
  | none => wrapI32 (tg.outOfRange f)

/-- Line 242, `int machinePixels = ((float)widthX/(float)ledStripLength) * ledCount;`:
the single-precision product, converted to `int`. -/
def computeMachinePixels (tg : Target) (widthX : Nat) (ledStripLength ledCount : Int) : Int :=
  (machinePixelsFloat widthX ledStripLength ledCount).toInt tg

/-- A target whose `map` truncates, for the worked examples: an empty range is
answered with -1 and a conversion out of range with 0, neither of which the
examples reach. -/
def Target.truncating : Target := ⟨Rescale.truncating, fun _ _ _ _ _ => -1, fun _ => 0⟩

/-- A target whose `map` rounds to nearest, for the worked examples: an empty range
is answered with -1 and a conversion out of range with 0, neither of which the
examples reach. -/
def Target.nearest : Target := ⟨Rescale.nearest, fun _ _ _ _ _ => -1, fun _ => 0⟩

/-! ## The usermod -/

/-- The private members of `class FluidNcUsermod` (the `WiFiClient` apart, whose
input is passed to `loop` as an argument). -/
structure FluidNcUsermod where
  enabled : Bool
  initDone : Bool
  lastTime : Nat
  fluidNcUrl : List Char
  fluidNcTelnetPort : Int
  widthX : Nat
  positionLedCount : Nat
  positionOffsetX : Int
  ledStripLength : Int
  reversePositionX : Bool
  fluidNcConnected : Bool
  ledCount : Int
  status : List Char
  statusPrev : List Char
  mPosX : Int
  mPosXPrev : Int
  deriving DecidableEq, Repr

/-- The member initialisers of the class. -/
def FluidNcUsermod.init : FluidNcUsermod where
  enabled := true
  initDone := false
  lastTime := 0
  fluidNcUrl := []
  fluidNcTelnetPort := 23
  widthX := 1000
  positionLedCount := 1
  positionOffsetX := 0
  ledStripLength := 1000
  reversePositionX := false
  fluidNcConnected := false
  ledCount := 0
  status := "UNKNOWN".toList
  statusPrev := "UNKNOWN".toList
  mPosX := 0
  mPosXPrev := 0

/-- What one call of `loop()` observes: the value of `millis()` (both reads within
a call are taken to give the same value) and the lines that
`client.readStringUntil` delivers while `client.available()` holds, in order. -/
structure Tick where
  millis : Nat
  lines : List (List Char)
  deriving DecidableEq, Repr

/-- The `while (client.available())` loop of `loop()`: `statusLine` starts empty
and is overwritten by every line read that starts with `<`. -/
def drainLines (lines : List (List Char)) : List Char :=
  lines.foldl (fun statusLine tempLine =>
    if startsWith tempLine "<".toList then tempLine else statusLine) []

/-- The parse of `loop()`, lines 107-116: the state token and the integer part of
the X position of a retained status line. -/
def parseStatus (statusLine : List Char) : List Char × Int :=
  let pos : Nat := toU32 (indexOf statusLine '|')
  let status := substring statusLine 1 pos
  let pos2 : Nat := toU32 (indexOfFrom statusLine '|' (toU32 ((pos : Int) + 1)))
  let mpos := substring statusLine pos pos2
  let mPosXStr := substring mpos 6 (toU32 (indexOf mpos '.'))
  (status, toInt mPosXStr)

/-- The block `if(status != statusPrev) { ... }` of `loop()`, lines 118-137: the
arguments of the calls of `applyPreset` it makes. -/
def dispatch (status statusPrev : List Char) : List Nat :=
  if status ≠ statusPrev then
    if status = "Idle".toList then [1]
    else if status = "Home".toList then [2]
    else if status = "Alarm".toList then [3]
    else if startsWith status "Hold".toList then [4]
    else if status = "Run".toList then [5]
    else if status = "Jog".toList then [6]
    else [7]
  else []

/-- The method `loop()`. The result is the usermod after the call and the
arguments of the calls of `applyPreset` made, in order. -/
def FluidNcUsermod.loop (s : FluidNcUsermod) (t : Tick) : FluidNcUsermod × List Nat :=
  if !s.enabled then (s, [])
  else if toU32 ((t.millis : Int) - (s.lastTime : Int)) > 200 then
    let s := { s with lastTime := t.millis }
    let statusLine := drainLines t.lines
    if statusLine.length > 0 then
      let parsed := parseStatus statusLine
      let s := { s with status := parsed.1, mPosX := parsed.2 }
      let presets := dispatch s.status s.statusPrev
      ({ s with statusPrev := s.status }, presets)
    else (s, [])
  else (s, [])

/-- A call of `strip.setPixelColor(index, colour)`. -/
structure PixelWrite where
  index : Int
  colour : Nat
  deriving DecidableEq, Repr

/-- The body of the spread loop of `handleOverlayDraw()` for one value of `i`:
the write below the centre is guarded by `positionIndex-i >= 0`, the write above
by `positionIndex+i <= widthX`, a comparison of an `int` with an `unsigned int`
and so made on unsigned values. -/
def spreadBody (positionIndex : Int) (widthX : Nat) (i : Nat) : List PixelWrite :=
  (if wrapI32 (positionIndex - i) ≥ 0 then
      [{ index := wrapI32 (positionIndex - i), colour := RGBW32 255 255 255 255 }]
    else []) ++
  (if toU32 (wrapI32 (positionIndex + i)) ≤ widthX then
      [{ index := wrapI32 (positionIndex + i), colour := RGBW32 255 255 255 255 }]
    else [])

/-- The loop `for (int i = 1; i <= positionLedCount/2; i++)`, entered at `i` with
`n` iterations left. -/
def spreadLoop (positionIndex : Int) (widthX : Nat) : Nat → Nat → List PixelWrite
  | _, 0 => []
  | i, n + 1 => spreadBody positionIndex widthX i ++ spreadLoop positionIndex widthX (i + 1) n

/-- The centre index `positionIndex` that `handleOverlayDraw()` computes from the
members, lines 241-286 (the state gate and the width gate apart). -/
def FluidNcUsermod.positionIndex (s : FluidNcUsermod) (tg : Target) : Int :=
  let machinePixels := computeMachinePixels tg s.widthX s.ledStripLength s.ledCount
  -- int tmp = constrain(mPosX, 0, widthX);  the value is overwritten at once
  let _tmp := constrain s.mPosX 0 s.widthX
  -- tmp = map(mPosX, 0, widthX, 0, machinePixels-1);
  let tmp := map tg s.mPosX 0 (wrapI32 s.widthX) 0 (wrapI32 (machinePixels - 1))
  let offsetPixels := map tg s.positionOffsetX 0 s.ledStripLength 0 s.ledCount
  let tmp := wrapI32 (tmp + offsetPixels)
  if s.reversePositionX then wrapI32 (s.ledCount - tmp) else tmp

/-- The method `handleOverlayDraw()`. The result is the usermod after the call and
the calls of `strip.setPixelColor` made, in order. -/
def FluidNcUsermod.handleOverlayDraw (s : FluidNcUsermod) (tg : Target) :
    FluidNcUsermod × List PixelWrite :=
  if s.status = "Jog".toList ∨ s.status = "Run".toList then
    let positionIndex := s.positionIndex tg
    if s.positionLedCount > 0 then
      let s :=
        if s.positionLedCount % 2 = 0 then
          { s with positionLedCount := (s.positionLedCount + 1) % 4294967296 }
        else s
      (s, { index := positionIndex, colour := RGBW32 255 255 255 255 } ::
        spreadLoop positionIndex s.widthX 1 (s.positionLedCount / 2))
    else (s, [])
  else (s, [])

/-- Every member holds a value of its C type: `unsigned int` below `2^32`, `int`
within `[-2^31, 2^31)`. -/
def FluidNcUsermod.InRange (s : FluidNcUsermod) : Prop :=
  s.widthX < 4294967296 ∧ s.positionLedCount < 4294967296 ∧
  (-2147483648 ≤ s.positionOffsetX ∧ s.positionOffsetX < 2147483648) ∧
  (-2147483648 ≤ s.ledStripLength ∧ s.ledStripLength < 2147483648) ∧
  (-2147483648 ≤ s.ledCount ∧ s.ledCount < 2147483648) ∧
  (-2147483648 ≤ s.mPosX ∧ s.mPosX < 2147483648)

instance (s : FluidNcUsermod) : Decidable s.InRange :=
  inferInstanceAs (Decidable (_ ∧ _))

/-- The usermod is in one of the two states in which the overlay is drawn. -/
def FluidNcUsermod.Moving (s : FluidNcUsermod) : Prop :=
  s.status = "Jog".toList ∨ s.status = "Run".toList

instance (s : FluidNcUsermod) : Decidable s.Moving :=
  inferInstanceAs (Decidable (_ ∨ _))

/-- The indices of the pixels that `handleOverlayDraw()` writes, in order. -/
def FluidNcUsermod.writtenIndices (s : FluidNcUsermod) (tg : Target) : List Int :=
  (s.handleOverlayDraw tg).2.map PixelWrite.index

/-- Scenario A of the specification: the default configuration on a strip of 100
pixels, the machine running at X = 500. -/
def scenarioA : FluidNcUsermod :=
  { FluidNcUsermod.init with ledCount := 100, status := "Run".toList, mPosX := 500 }

/-- A machine 20 mm wide under a strip of 820 mm and 41 pixels, one pixel for the
machine range in exact arithmetic; state "Run". -/
def narrowMachine : FluidNcUsermod :=
  { scenarioA with widthX := 20, ledStripLength := 820, ledCount := 41 }

/-- A tick is a processing tick: the usermod is enabled, more than 200 ms have
passed since the last processing tick, and a line starting with `<` was read. -/
def FluidNcUsermod.Processes (s : FluidNcUsermod) (t : Tick) : Prop :=
  s.enabled = true ∧ toU32 ((t.millis : Int) - (s.lastTime : Int)) > 200 ∧
    drainLines t.lines ≠ []

instance (s : FluidNcUsermod) (t : Tick) : Decidable (s.Processes t) :=
  inferInstanceAs (Decidable (_ ∧ _))

/-- The state token that the parse of `loop()` takes from the lines of a tick. -/
def Tick.token (t : Tick) : List Char := (parseStatus (drainLines t.lines)).1

/-- Consecutive calls of `loop()`, one per tick; the result is the usermod after
the last call and, for each tick, the arguments of its `applyPreset` calls. -/
def FluidNcUsermod.run (s : FluidNcUsermod) : List Tick → FluidNcUsermod × List (List Nat)
  | [] => (s, [])
  | t :: ts =>
    let r := s.loop t
    let rest := FluidNcUsermod.run r.1 ts
    (rest.1, r.2 :: rest.2)

/-- Every tick of the list is a processing tick of the usermod as it stands when
the tick comes, and carries the state token `tok`. -/
def FluidNcUsermod.ProcessesAll (s : FluidNcUsermod) (tok : List Char) : List Tick → Prop
  | [] => True
  | t :: ts => s.Processes t ∧ t.token = tok ∧
      FluidNcUsermod.ProcessesAll (s.loop t).1 tok ts

instance decProcessesAll : (s : FluidNcUsermod) → (tok : List Char) → (ts : List Tick) →
    Decidable (s.ProcessesAll tok ts)
  | _, _, [] => isTrue trivial
  | s, tok, t :: ts =>
    have := decProcessesAll (s.loop t).1 tok ts
    inferInstanceAs (Decidable (s.Processes t ∧ t.token = tok ∧
      FluidNcUsermod.ProcessesAll (s.loop t).1 tok ts))

/-- Ten consecutive "Run" reports, 201 ms apart. -/
def tenRunTicks : List Tick :=
  (List.range 10).map (fun k =>
    ⟨201 * (k + 1), ["<Run|MPos:12.500,0.000,0.000|FS:500,0>".toList]⟩)

/-! ## The line reader, seen from the specification -/

/-- The last line of the list that begins with `<`, if there is one. -/
def lastStatusLine (lines : List (List Char)) : Option (List Char) :=
  (lines.filter (fun l => startsWith l "<".toList)).getLast?

/-! ## Calls of the host -/

/-- A call of the host that acts on the stored state: `loop()` with what it observes,
or `enable(b)`. -/
inductive Call where
  | loop (t : Tick)
  | enable (b : Bool)
  deriving DecidableEq, Repr

/-- The method `enable(bool enable)`. -/
def FluidNcUsermod.enable (s : FluidNcUsermod) (enable : Bool) : FluidNcUsermod :=
  { s with enabled := enable }

/-- One call of the host. -/
def FluidNcUsermod.call (s : FluidNcUsermod) : Call → FluidNcUsermod
  | .loop t => (s.loop t).1
  | .enable b => s.enable b

/-- A sequence of calls of the host, in order. -/
def FluidNcUsermod.calls (s : FluidNcUsermod) (cs : List Call) : FluidNcUsermod :=
  cs.foldl FluidNcUsermod.call s

/-! ## The connection -/

/-- What `connected()` does on the network, in order: a call of
`client.connect(host, port)`, a call of `client.write(payload)`, a call of
`delay(ms)`. -/
inductive NetEvent where
  | connect (host : List Char) (port : Int)
  | write (payload : List Char)
  | delay (ms : Nat)
  deriving DecidableEq, Repr

/-- The loop `while(!fluidNcConnected)` of `connected()`. The list gives the outcomes
of the successive calls of `client.connect`; `none` says that the list is used up
with the loop still running. -/
def whileNotConnected : List Bool → FluidNcUsermod → Option (FluidNcUsermod × List NetEvent)
  | [], s => if s.fluidNcConnected then some (s, []) else none
  | ok :: outcomes, s =>
    if s.fluidNcConnected then some (s, [])
    else if ok then
      (whileNotConnected outcomes { s with fluidNcConnected := true }).map (fun r =>
        (r.1, NetEvent.connect s.fluidNcUrl s.fluidNcTelnetPort ::
          NetEvent.write "$Report/Interval=200\n".toList :: r.2))
    else
      (whileNotConnected outcomes s).map (fun r =>
        (r.1, NetEvent.connect s.fluidNcUrl s.fluidNcTelnetPort :: NetEvent.delay 500 :: r.2))

/-- The method `connected()`. -/
def FluidNcUsermod.connected (s : FluidNcUsermod) (outcomes : List Bool) :
    Option (FluidNcUsermod × List NetEvent) :=
  (whileNotConnected outcomes s).map (fun r => ({ r.1 with initDone := true }, r.2))

/-! ## The configuration -/

/-- The object "FluidNC" of the configuration as `readFromConfig` reads it: for each
key, `none` when the key is missing (the element is null), and otherwise the value,
taken after ArduinoJson's conversion to the type of the member. -/
structure FluidNcJson where
  enabled : Option Bool
  fluidNcUrl : Option (List Char)
  fluidNcTelnetPort : Option Int
  widthX : Option Nat
  positionLedCount : Option Nat
  positionOffsetX : Option Int
  reversePositionX : Option Bool
  ledStripLength : Option Int
  deriving DecidableEq, Repr

/-- Modelled from the spec: WLED's helper `getJsonValue(element, destination)` (declared
in WLED's headers, not part of the sources at hand). The comment of `readFromConfig`
describes it: it "returns false if the value is missing, or copies the value into
the variable provided and returns true if the value is present". The result is the
returned flag and the destination after the call. -/
def getJsonValue {α : Type} (element : Option α) (destination : α) : Bool × α :=
  match element with
  | none => (false, destination)
  | some v => (true, v)

/-- The method `readFromConfig(root)`; `root` is `none` when the configuration has no
object "FluidNC", in which case every element `top[key]` is null. The result is the
usermod after the call and the value returned. -/
def FluidNcUsermod.readFromConfig (s : FluidNcUsermod) (root : Option FluidNcJson) :
    FluidNcUsermod × Bool :=
  let top := root
  let configComplete := top.isSome
  let r := getJsonValue (top.bind FluidNcJson.enabled) s.enabled
  let s := { s with enabled := r.2 }
  let configComplete := configComplete && r.1
  let r := getJsonValue (top.bind FluidNcJson.fluidNcUrl) s.fluidNcUrl
  let s := { s with fluidNcUrl := r.2 }
  let configComplete := configComplete && r.1
  let r := getJsonValue (top.bind FluidNcJson.fluidNcTelnetPort) s.fluidNcTelnetPort
  let s := { s with fluidNcTelnetPort := r.2 }
  let configComplete := configComplete && r.1
  let r := getJsonValue (top.bind FluidNcJson.widthX) s.widthX
  let s := { s with widthX := r.2 }
  let configComplete := configComplete && r.1
  let r := getJsonValue (top.bind FluidNcJson.positionLedCount) s.positionLedCount
  let s := { s with positionLedCount := r.2 }
  let configComplete := configComplete && r.1
  let r := getJsonValue (top.bind FluidNcJson.positionOffsetX) s.positionOffsetX
  let s := { s with positionOffsetX := r.2 }
  let configComplete := configComplete && r.1
  let r := getJsonValue (top.bind FluidNcJson.reversePositionX) s.reversePositionX
  let s := { s with reversePositionX := r.2 }
  let configComplete := configComplete && r.1
  let r := getJsonValue (top.bind FluidNcJson.ledStripLength) s.ledStripLength
  let s := { s with ledStripLength := r.2 }
  let configComplete := configComplete && r.1
  (s, configComplete)

/-! ## The position mapping in exact arithmetic -/

/-- A value lies in the range of a 32-bit `int`. -/
def InI32 (x : Int) : Prop := -2147483648 ≤ x ∧ x < 2147483648

instance (x : Int) : Decidable (InI32 x) := inferInstanceAs (Decidable (_ ∧ _))

/-- The base pixel position `map(mPosX, 0, widthX, 0, machinePixels-1)` without
reduction to 32 bits, `machinePixels` being the value computed on line 242. -/
def FluidNcUsermod.exactBase (s : FluidNcUsermod) (tg : Target) : Int :=
  tg.rescale.quotient
    (s.mPosX * (computeMachinePixels tg s.widthX s.ledStripLength s.ledCount - 1)) s.widthX

/-- The offset in pixels `map(positionOffsetX, 0, ledStripLength, 0, ledCount)`,
without reduction to 32 bits. -/
def FluidNcUsermod.exactOffset (s : FluidNcUsermod) (tg : Target) : Int :=
  tg.rescale.quotient (s.positionOffsetX * s.ledCount) s.ledStripLength

/-- The final index in exact integer arithmetic: base position plus offset, or
`ledCount` minus that sum when the direction is reversed. -/
def FluidNcUsermod.exactFinalIndex (s : FluidNcUsermod) (tg : Target) : Int :=
  if s.reversePositionX then s.ledCount - (s.exactBase tg + s.exactOffset tg)
  else s.exactBase tg + s.exactOffset tg

/-- The arithmetic of `handleOverlayDraw()` does not overflow: `widthX` converts to
`long` unchanged, and `machinePixels - 1`, the two products, the two dividends of
`map`, the sum of base and offset, and the reversed index all lie in the range of
`int`. -/
def FluidNcUsermod.NoOverflow (s : FluidNcUsermod) (tg : Target) : Prop :=
  (s.widthX : Int) < 2147483648 ∧
  InI32 (computeMachinePixels tg s.widthX s.ledStripLength s.ledCount - 1) ∧
  InI32 (s.mPosX * (computeMachinePixels tg s.widthX s.ledStripLength s.ledCount - 1)) ∧
  InI32 (tg.rescale.numerator
    (s.mPosX * (computeMachinePixels tg s.widthX s.ledStripLength s.ledCount - 1)) s.widthX) ∧
  InI32 (s.positionOffsetX * s.ledCount) ∧
  InI32 (tg.rescale.numerator (s.positionOffsetX * s.ledCount) s.ledStripLength) ∧
  InI32 (s.exactBase tg + s.exactOffset tg) ∧
  InI32 (s.ledCount - (s.exactBase tg + s.exactOffset tg))

instance (s : FluidNcUsermod) (tg : Target) : Decidable (s.NoOverflow tg) :=
  inferInstanceAs (Decidable (_ ∧ _))

/-- The position as the specification has it, §4.4 steps 1 to 4, in exact integer
arithmetic: `trunc(x * (machinePixels - 1) / widthX) + trunc(positionOffsetX *
ledCount / ledStripLength)` with `machinePixels = floor(widthX / ledStripLength *
ledCount)`. -/
def FluidNcUsermod.specPosition (s : FluidNcUsermod) : Int :=
  let machinePixels := ((s.widthX : Int) * s.ledCount) / s.ledStripLength
  Int.tdiv (s.mPosX * (machinePixels - 1)) s.widthX
    + Int.tdiv (s.positionOffsetX * s.ledCount) s.ledStripLength

/-- The final index of the specification, §4.4 step 6: the position, or
`ledCount - position` when the direction is reversed. -/
def FluidNcUsermod.specFinalIndex (s : FluidNcUsermod) : Int :=
  if s.reversePositionX then s.ledCount - s.specPosition else s.specPosition

/-- The half-width of the indicator, §4.4 step 5: the configured width, made odd by
adding one (in `unsigned int`) when it is even, halved. -/
def FluidNcUsermod.halfWidth (s : FluidNcUsermod) : Nat :=
  (if s.positionLedCount % 2 = 0 then (s.positionLedCount + 1) % 4294967296
    else s.positionLedCount) / 2

/-- The pixel writes of `handleOverlayDraw()`, in order. -/
def FluidNcUsermod.pixelWrites (s : FluidNcUsermod) (tg : Target) : List PixelWrite :=
  (s.handleOverlayDraw tg).2

set_option maxRecDepth 8000

/-! ## Machine integers: basic facts -/

theorem wrapI32_of_range (x : Int) (h1 : -2147483648 ≤ x) (h2 : x < 2147483648) :
    wrapI32 x = x := by
  unfold wrapI32; split <;> omega

theorem wrapI32_ne_zero (x : Int) (h1 : -4294967296 < x) (h2 : x < 4294967296) (h : x ≠ 0) :
    wrapI32 x ≠ 0 := by
  unfold wrapI32; split <;> omega

theorem wrapI32_wrapI32 (x : Int) : wrapI32 (wrapI32 x) = wrapI32 x := by
  unfold wrapI32; split <;> split <;> omega

/-! ## The overlay -/

theorem spreadLoop_eq_flatMap (positionIndex : Int) (widthX : Nat) (n i : Nat) :
    spreadLoop positionIndex widthX i n =
      (List.range' i n).flatMap (spreadBody positionIndex widthX) := by
  induction n generalizing i with
  | zero => simp [spreadLoop]
  | succ n ih => simp [spreadLoop, List.range'_succ, ih]

theorem handleOverlayDraw_of_not_moving (s : FluidNcUsermod) (tg : Target) (h : ¬ s.Moving) :
    s.handleOverlayDraw tg = (s, []) := by
  unfold FluidNcUsermod.Moving at h
  unfold FluidNcUsermod.handleOverlayDraw
  rw [if_neg h]

theorem handleOverlayDraw_of_moving (s : FluidNcUsermod) (tg : Target) (h : s.Moving) :
    s.handleOverlayDraw tg =
      if s.positionLedCount > 0 then
        (if s.positionLedCount % 2 = 0 then
            { s with positionLedCount := (s.positionLedCount + 1) % 4294967296 }
          else s,
          { index := s.positionIndex tg, colour := RGBW32 255 255 255 255 } ::
            spreadLoop (s.positionIndex tg) s.widthX 1
              ((if s.positionLedCount % 2 = 0 then (s.positionLedCount + 1) % 4294967296
                else s.positionLedCount) / 2))
      else (s, []) := by
  unfold FluidNcUsermod.Moving at h
  unfold FluidNcUsermod.handleOverlayDraw
  rw [if_pos h]
  by_cases hp : s.positionLedCount > 0
  · by_cases he : s.positionLedCount % 2 = 0 <;> simp [hp, he]
  · simp [hp]

/-! ## The tick -/

/-- What `loop()` does on a processing tick. -/
theorem loop_of_processes (s : FluidNcUsermod) (t : Tick) (h : s.Processes t) :
    s.loop t =
      ({ s with
          lastTime := t.millis
          status := t.token
          mPosX := (parseStatus (drainLines t.lines)).2
          statusPrev := t.token },
        dispatch t.token s.statusPrev) := by
  obtain ⟨he, ht, hl⟩ := h
  have hlen : (drainLines t.lines).length > 0 := List.length_pos.mpr hl
  unfold FluidNcUsermod.loop Tick.token
  simp only [he, Bool.not_true, Bool.false_eq_true, if_false, ht, if_true, hlen]

/-- What `loop()` does on any other tick: no preset is applied and at most `lastTime`
changes. -/
theorem loop_of_not_processes (s : FluidNcUsermod) (t : Tick) (h : ¬ s.Processes t) :
    s.loop t = (s, []) ∨ s.loop t = ({ s with lastTime := t.millis }, []) := by
  unfold FluidNcUsermod.Processes at h
  unfold FluidNcUsermod.loop
  by_cases he : s.enabled = true
  · by_cases ht : toU32 ((t.millis : Int) - (s.lastTime : Int)) > 200
    · have hl : drainLines t.lines = [] := by
        by_contra hne; exact h ⟨he, ht, hne⟩
      right
      simp [he, ht, hl]
    · left
      simp [he, ht]
  · left
    simp [he]

/-! ## Claims about the overlay -/

/-- C1 (code at the failing inputs): on the configuration of Scenario A, on every
target, the centre index written for X = -500 is -49 and not the index 0 written for
X = 0, and the centre index written for X = 2000 is 198 and not the index 99 written
for X = widthX = 1000: the position is rescaled as reported, without the clamp. -/
theorem C1_position_rescaled_unclamped (tg : Target) :
    ({ scenarioA with mPosX := -500 }).writtenIndices tg = [-49] ∧
    ({ scenarioA with mPosX := 0 }).writtenIndices tg = [0] ∧
    ({ scenarioA with mPosX := 2000 }).writtenIndices tg = [198] ∧
    ({ scenarioA with mPosX := 1000 }).writtenIndices tg = [99] ∧
    constrain (-500) 0 1000 = 0 ∧ constrain 2000 0 1000 = 1000 := by
  obtain ⟨r, e, o⟩ := tg
  cases r <;> exact ⟨rfl, rfl, rfl, rfl, by decide, by decide⟩

/-- C2 (code at the failing input): on the configuration of Scenario A with an
indicator three pixels wide and the machine at X = 1000, on every target, the strip
of 100 pixels (valid indices 0..99) is written at the indices 99, 98 and 100. -/
theorem C2_write_beyond_strip (tg : Target) :
    ({ scenarioA with mPosX := 1000, positionLedCount := 3 }).writtenIndices tg
      = [99, 98, 100] ∧
    ({ scenarioA with mPosX := 1000, positionLedCount := 3 }).ledCount = 100 := by
  obtain ⟨r, e, o⟩ := tg
  cases r <;> exact ⟨rfl, rfl⟩

/-- Scenario A on a target whose `map` truncates: the base pixel is
500 * 99 / 1000 = 49 and the one pixel written is the pixel 49. -/
theorem scenarioA_truncating (tg : Target) (h : tg.rescale = Rescale.truncating) :
    map tg 500 0 1000 0 (100 - 1) = 49 ∧ scenarioA.writtenIndices tg = [49] := by
  obtain ⟨r, e, o⟩ := tg
  subst h
  exact ⟨rfl, rfl⟩

/-- C9 (as stated, refuted): 0 is an even width, and on every target it is not
forced odd and nothing is drawn, not even the centre pixel. -/
theorem C9_width_zero_draws_nothing :
    ({ scenarioA with positionLedCount := 0 }).positionLedCount % 2 = 0 ∧
    ∀ tg : Target, ({ scenarioA with positionLedCount := 0 }).handleOverlayDraw tg
      = ({ scenarioA with positionLedCount := 0 }, []) :=
  ⟨rfl, fun _ => rfl⟩

/-- C9 (amended): for every even configured indicator width n > 0, in state Run or
Jog, `handleOverlayDraw` stores the odd width n + 1 and draws the centre pixel
followed by the writes of the spread loop for i = 1 .. (n+1)/2, in that order. -/
theorem C9_even_width_forced_odd (s : FluidNcUsermod) (tg : Target) (hr : s.InRange)
    (hm : s.Moving) (hpos : 0 < s.positionLedCount) (heven : s.positionLedCount % 2 = 0) :
    s.handleOverlayDraw tg =
      ({ s with positionLedCount := s.positionLedCount + 1 },
        { index := s.positionIndex tg, colour := RGBW32 255 255 255 255 } ::
          (List.range' 1 ((s.positionLedCount + 1) / 2)).flatMap
            (spreadBody (s.positionIndex tg) s.widthX)) ∧
    (s.positionLedCount + 1) % 2 = 1 := by
  have hlt : s.positionLedCount < 4294967296 := hr.2.1
  have hmod : (s.positionLedCount + 1) % 4294967296 = s.positionLedCount + 1 := by omega
  refine ⟨?_, by omega⟩
  rw [handleOverlayDraw_of_moving s tg hm, if_pos hpos, if_pos heven, if_pos heven,
    hmod, spreadLoop_eq_flatMap]

/-- C9 at Scenario A with the even width 4: the width 5 is stored and the spread loop runs
for i = 1, 2. -/
theorem C9_even_width_forced_odd_witness :
    ({ scenarioA with positionLedCount := 4 }).handleOverlayDraw Target.nearest =
      ({ { scenarioA with positionLedCount := 4 } with positionLedCount := 4 + 1 },
        { index := ({ scenarioA with positionLedCount := 4 }).positionIndex Target.nearest,
          colour := RGBW32 255 255 255 255 } ::
          (List.range' 1 ((4 + 1) / 2)).flatMap
            (spreadBody (({ scenarioA with positionLedCount := 4 }).positionIndex
              Target.nearest) 1000)) ∧
    (4 + 1) % 2 = 1 :=
  C9_even_width_forced_odd { scenarioA with positionLedCount := 4 } Target.nearest
    (by decide) (by decide) (by decide) (by decide)

/-- C10 (as stated, refuted): with the even width 2 configured, one call of
`handleOverlayDraw` in state "Run" leaves positionLedCount at 3, on every target. -/
theorem C10_width_member_changed :
    ({ scenarioA with positionLedCount := 2 }).positionLedCount = 2 ∧
    ∀ tg : Target,
      (({ scenarioA with positionLedCount := 2 }).handleOverlayDraw tg).1.positionLedCount
        = 3 :=
  ⟨rfl, fun _ => rfl⟩

/-- C10 (amended): for every state, configuration and target, `loop` leaves every
configuration member as it was; `handleOverlayDraw` leaves fluidNcUrl,
fluidNcTelnetPort, widthX, positionOffsetX, ledStripLength and reversePositionX as
they were, and leaves positionLedCount as it was unless the state is Run or Jog and
positionLedCount is even and positive, in which case positionLedCount is
incremented by one in `unsigned int`, which for a value of that type is the
increment by one without a wrap. -/
theorem C10_config_frame (s : FluidNcUsermod) (t : Tick) (tg : Target) :
    ((s.loop t).1.fluidNcUrl = s.fluidNcUrl ∧
      (s.loop t).1.fluidNcTelnetPort = s.fluidNcTelnetPort ∧
      (s.loop t).1.widthX = s.widthX ∧
      (s.loop t).1.positionLedCount = s.positionLedCount ∧
      (s.loop t).1.positionOffsetX = s.positionOffsetX ∧
      (s.loop t).1.ledStripLength = s.ledStripLength ∧
      (s.loop t).1.reversePositionX = s.reversePositionX) ∧
    (s.handleOverlayDraw tg).1.fluidNcUrl = s.fluidNcUrl ∧
    (s.handleOverlayDraw tg).1.fluidNcTelnetPort = s.fluidNcTelnetPort ∧
    (s.handleOverlayDraw tg).1.widthX = s.widthX ∧
    (s.handleOverlayDraw tg).1.positionOffsetX = s.positionOffsetX ∧
    (s.handleOverlayDraw tg).1.ledStripLength = s.ledStripLength ∧
    (s.handleOverlayDraw tg).1.reversePositionX = s.reversePositionX ∧
    (s.handleOverlayDraw tg).1.positionLedCount =
      (if s.Moving ∧ 0 < s.positionLedCount ∧ s.positionLedCount % 2 = 0 then
        (s.positionLedCount + 1) % 4294967296
      else s.positionLedCount) ∧
    (s.positionLedCount < 4294967296 → s.positionLedCount % 2 = 0 →
      (s.positionLedCount + 1) % 4294967296 = s.positionLedCount + 1) := by
  refine ⟨?_, ?_⟩
  · by_cases hp : s.Processes t
    · rw [loop_of_processes s t hp]
      exact ⟨rfl, rfl, rfl, rfl, rfl, rfl, rfl⟩
    · rcases loop_of_not_processes s t hp with h1 | h1 <;> rw [h1] <;>
        exact ⟨rfl, rfl, rfl, rfl, rfl, rfl, rfl⟩
  · have hwrap : s.positionLedCount < 4294967296 → s.positionLedCount % 2 = 0 →
        (s.positionLedCount + 1) % 4294967296 = s.positionLedCount + 1 := by
      intro hlt he
      omega
    by_cases hm : s.Moving
    · rw [handleOverlayDraw_of_moving s tg hm]
      by_cases hp : s.positionLedCount > 0
      · by_cases he : s.positionLedCount % 2 = 0
        · rw [if_pos hp, if_pos he]
          exact ⟨rfl, rfl, rfl, rfl, rfl, rfl, by simp [hm, hp, he], hwrap⟩
        · rw [if_pos hp, if_neg he]
          exact ⟨rfl, rfl, rfl, rfl, rfl, rfl, by simp [he], hwrap⟩
      · rw [if_neg hp]
        exact ⟨rfl, rfl, rfl, rfl, rfl, rfl,
          by simp [show ¬ 0 < s.positionLedCount from hp], hwrap⟩
    · rw [handleOverlayDraw_of_not_moving s tg hm]
      exact ⟨rfl, rfl, rfl, rfl, rfl, rfl, by simp [hm], hwrap⟩

/-! ## The `String` operations: basic facts -/

theorem toU32_neg_one : toU32 (-1) = 4294967295 := by decide

theorem toU32_natCast (n : Nat) (h : n < 4294967296) : toU32 (n : Int) = n := by
  unfold toU32; omega

theorem findChar_of_not_mem (c : Char) (l : List Char) (h : c ∉ l) : findChar c l = none := by
  induction l with
  | nil => rfl
  | cons x xs ih =>
    simp only [List.mem_cons, not_or] at h
    simp [findChar, Ne.symm h.1, ih h.2]

theorem findChar_append_cons (c : Char) (a b : List Char) (h : c ∉ a) :
    findChar c (a ++ c :: b) = some a.length := by
  induction a with
  | nil => simp [findChar]
  | cons x xs ih =>
    simp only [List.mem_cons, not_or] at h
    simp [findChar, Ne.symm h.1, ih h.2]

theorem indexOfFrom_of_not_mem (s : List Char) (c : Char) (k : Nat) (h : c ∉ s.drop k) :
    indexOfFrom s c k = -1 := by
  unfold indexOfFrom
  split
  · rfl
  · rw [findChar_of_not_mem c _ h]

theorem indexOfFrom_append_cons (a m b : List Char) (c : Char) (h : c ∉ m) :
    indexOfFrom (a ++ m ++ c :: b) c a.length = ((a.length + m.length : Nat) : Int) := by
  unfold indexOfFrom
  have hlen : ¬ (a ++ m ++ c :: b).length ≤ a.length := by simp
  rw [if_neg hlen]
  have hdrop : (a ++ m ++ c :: b).drop a.length = m ++ c :: b := by
    rw [List.append_assoc, List.drop_left]
  rw [hdrop, findChar_append_cons c m b h]

theorem indexOf_append_cons (m b : List Char) (c : Char) (h : c ∉ m) :
    indexOf (m ++ c :: b) c = (m.length : Int) := by
  have := indexOfFrom_append_cons [] m b c h
  simpa [indexOf] using this

theorem substring_of_length_le (s : List Char) (l r : Nat) (hlr : l ≤ r) (h : s.length ≤ l) :
    substring s l r = [] := by
  unfold substring
  have h1 : ¬ l > r := by omega
  simp only [h1, if_false, h, if_true]

theorem substring_to_end (s : List Char) (l r : Nat) (hl : l < s.length) (hr : s.length ≤ r) :
    substring s l r = s.drop l := by
  unfold substring
  have h1 : ¬ l > r := by omega
  have h2 : ¬ s.length ≤ l := by omega
  simp only [h1, if_false, h2]
  by_cases h3 : r > s.length
  · simp only [h3, if_true, List.take_length]
  · have : r = s.length := by omega
    subst this
    simp only [h3, if_false, List.take_length]

theorem substring_mid (s : List Char) (l r : Nat) (hlr : l ≤ r) (hl : l < s.length)
    (hr : r ≤ s.length) : substring s l r = (s.take r).drop l := by
  unfold substring
  have h1 : ¬ l > r := by omega
  have h2 : ¬ s.length ≤ l := by omega
  have h3 : ¬ r > s.length := by omega
  simp only [h1, if_false, h2, h3]

theorem toInt_nil : toInt [] = 0 := by decide

/-! ## The parse of a status line -/

theorem toU32_max_succ : toU32 (((4294967295 : Nat) : Int) + 1) = 0 := by decide

/-- A text either has no `|`, or splits at its first `|`. -/
theorem split_at_bar (l : List Char) :
    ('|' ∉ l ∧ l.takeWhile (fun c => c != '|') = l) ∨
    ∃ m b, l = m ++ '|' :: b ∧ '|' ∉ m ∧ l.takeWhile (fun c => c != '|') = m := by
  induction l with
  | nil => left; simp
  | cons x xs ih =>
    by_cases hx : x = '|'
    · right
      exact ⟨[], xs, by simp [hx], by simp, by simp [hx]⟩
    · rcases ih with ⟨h1, h2⟩ | ⟨m, b, h1, h2, h3⟩
      · left
        refine ⟨?_, ?_⟩
        · simp only [List.mem_cons, not_or]
          exact ⟨Ne.symm hx, h1⟩
        · simp [List.takeWhile_cons, hx, h2]
      · right
        refine ⟨x :: m, b, by simp [h1], ?_, ?_⟩
        · simp only [List.mem_cons, not_or]
          exact ⟨Ne.symm hx, h2⟩
        · simp [List.takeWhile_cons, hx, h3]

/-- The parse of a line without any `|`: the state token is the whole line after its
first character, and the position is 0. -/
theorem parseStatus_no_bar (c0 : Char) (rest : List Char) (hc : c0 ≠ '|')
    (h : '|' ∉ rest) (hlen : (c0 :: rest).length < 4294967296) :
    parseStatus (c0 :: rest) = (rest, 0) := by
  have hnm : '|' ∉ (c0 :: rest).drop 0 := by
    simp only [List.drop_zero, List.mem_cons, not_or]
    exact ⟨Ne.symm hc, h⟩
  have h1 : indexOfFrom (c0 :: rest) '|' 0 = -1 := indexOfFrom_of_not_mem _ _ 0 hnm
  have hst : substring (c0 :: rest) 1 4294967295 = rest := by
    cases rest with
    | nil => exact substring_of_length_le _ _ _ (by omega) (by simp)
    | cons y ys =>
      rw [substring_to_end _ _ _ (by simp) (by simp at hlen ⊢; omega)]
      rfl
  have hmp : substring (c0 :: rest) 4294967295 4294967295 = [] :=
    substring_of_length_le _ _ _ (by omega) (by omega)
  have hnil : ∀ r, substring [] 6 r = [] := by
    intro r
    unfold substring
    simp
  unfold parseStatus indexOf
  simp only [h1, toU32_neg_one, toU32_max_succ, hst, hmp, hnil, toInt_nil]

/-- The parse of a line with a `|`: the state token is the text between the first
character and the first `|`, and the position is read at offset 6 of the position
token, which runs from that `|` up to the next one (or to the end of the line). -/
theorem parseStatus_bar (c0 : Char) (S tail : List Char) (hc : c0 ≠ '|') (hS : '|' ∉ S)
    (hlen : (c0 :: S ++ '|' :: tail).length < 4294967296) :
    parseStatus (c0 :: S ++ '|' :: tail) =
      (S, toInt (substring ('|' :: tail.takeWhile (fun c => c != '|')) 6
        (toU32 (indexOf ('|' :: tail.takeWhile (fun c => c != '|')) '.')))) := by
  have hlen2 : S.length + 2 + tail.length < 4294967296 := by
    simp at hlen; omega
  have hnm : '|' ∉ c0 :: S := by
    simp only [List.mem_cons, not_or]
    exact ⟨Ne.symm hc, hS⟩
  have h1 : indexOf (c0 :: S ++ '|' :: tail) '|' = ((S.length + 1 : Nat) : Int) := by
    have := indexOf_append_cons (c0 :: S) tail '|' hnm
    simp at this ⊢
    exact this
  have hpos : toU32 (((S.length + 1 : Nat) : Int)) = S.length + 1 :=
    toU32_natCast _ (by omega)
  have hpos1 : toU32 (((S.length + 1 : Nat) : Int) + 1) = S.length + 2 := by
    have := toU32_natCast (S.length + 2) (by omega)
    rw [← this]; congr 1
  have hst : substring (c0 :: S ++ '|' :: tail) 1 (S.length + 1) = S := by
    rw [substring_mid _ _ _ (by omega) (by simp) (by simp)]
    have : (c0 :: S ++ '|' :: tail).take (S.length + 1) = c0 :: S := by
      simp
    rw [this]; rfl
  have hmpos : substring (c0 :: S ++ '|' :: tail) (S.length + 1)
      (toU32 (indexOfFrom (c0 :: S ++ '|' :: tail) '|' (S.length + 2)))
        = '|' :: tail.takeWhile (fun c => c != '|') := by
    have hdrop1 : (c0 :: S ++ '|' :: tail).drop (S.length + 1) = '|' :: tail := by
      simp
    rcases split_at_bar tail with ⟨hno, htw⟩ | ⟨m, b, htail, hm, htw⟩
    · have hdrop2 : (c0 :: S ++ '|' :: tail).drop (S.length + 2) = tail := by
        simp
      rw [indexOfFrom_of_not_mem _ _ _ (by rw [hdrop2]; exact hno), toU32_neg_one,
        substring_to_end _ _ _ (by simp) (by simp; omega), hdrop1, htw]
    · have hline : c0 :: S ++ '|' :: tail = (c0 :: S ++ ['|']) ++ m ++ '|' :: b := by
        simp [htail]
      have hidx := indexOfFrom_append_cons (c0 :: S ++ ['|']) m b '|' hm
      have hl2 : (c0 :: S ++ ['|']).length = S.length + 2 := by simp
      rw [← hline, hl2] at hidx
      have hmlen : S.length + 2 + m.length < 4294967296 := by
        have : tail.length = m.length + 1 + b.length := by simp [htail]; omega
        omega
      rw [hidx, toU32_natCast _ hmlen, htw,
        substring_mid _ _ _ (by omega) (by simp) (by simp [htail]; omega)]
      have htake : (c0 :: S ++ '|' :: tail).take (S.length + 2 + m.length)
          = c0 :: S ++ '|' :: m := by
        have := List.take_left (c0 :: S ++ '|' :: m) ('|' :: b)
        simp only [htail]
        simpa [Nat.add_assoc, Nat.add_comm, Nat.add_left_comm] using this
      rw [htake]
      simp
  unfold parseStatus
  simp only [h1, hpos, hpos1, hst, hmpos]

/-! ## Decimal numerals -/

theorem digit_char_facts (d : Nat) (h : d < 10) :
    (Char.ofNat (48 + d)).isDigit = true ∧ (Char.ofNat (48 + d)).toNat - 48 = d ∧
    isSpace (Char.ofNat (48 + d)) = false ∧ Char.ofNat (48 + d) ≠ '-' ∧
    Char.ofNat (48 + d) ≠ '+' ∧ Char.ofNat (48 + d) ≠ '.' ∧ Char.ofNat (48 + d) ≠ '|' := by
  interval_cases d <;> decide

theorem digitsValue_map (ds : List Nat) (acc : Nat) (h : ∀ d ∈ ds, d < 10) :
    digitsValue (ds.map (fun d => Char.ofNat (48 + d))) acc
      = acc * 10 ^ ds.length + Nat.ofDigits 10 ds.reverse := by
  induction ds generalizing acc with
  | nil => simp [digitsValue]
  | cons d ds ih =>
    have hd := digit_char_facts d (h d (List.mem_cons_self d ds))
    have hds : ∀ x ∈ ds, x < 10 := fun x hx => h x (List.mem_cons_of_mem d hx)
    simp only [List.map_cons, digitsValue, hd.1, if_true, hd.2.1, List.reverse_cons,
      List.length_cons]
    rw [ih _ hds, Nat.ofDigits_append, Nat.ofDigits_singleton, List.length_reverse]
    ring

theorem takeWhile_append_of_all (p : Char → Bool) (a b : List Char) (h : ∀ x ∈ a, p x = true) :
    (a ++ b).takeWhile p = a ++ b.takeWhile p := by
  induction a with
  | nil => rfl
  | cons x xs ih =>
    have hx := h x (List.mem_cons_self x xs)
    have hxs : ∀ y ∈ xs, p y = true := fun y hy => h y (List.mem_cons_of_mem x hy)
    simp [List.takeWhile_cons, hx, ih hxs]

/-- What `toInt` reads from a decimal numeral: an optional sign followed by at least
one digit, the digits given most significant first. -/
theorem toInt_numeral (sign : List Char) (ds : List Nat)
    (hsign : sign = [] ∨ sign = ['-'] ∨ sign = ['+']) (hds : ds ≠ [])
    (hdig : ∀ d ∈ ds, d < 10) :
    toInt (sign ++ ds.map (fun d => Char.ofNat (48 + d))) =
      clampI32 (if sign = ['-'] then -((Nat.ofDigits 10 ds.reverse : Nat) : Int)
        else ((Nat.ofDigits 10 ds.reverse : Nat) : Int)) := by
  have hval := digitsValue_map ds 0 hdig
  simp only [Nat.zero_mul, Nat.zero_add] at hval
  rcases hsign with h | h | h
  · subst h
    cases ds with
    | nil => exact absurd rfl hds
    | cons d ds' =>
      have hd := digit_char_facts d (hdig d (List.mem_cons_self d ds'))
      have hdrop : (Char.ofNat (48 + d) :: ds'.map (fun d => Char.ofNat (48 + d))).dropWhile
          isSpace = Char.ofNat (48 + d) :: ds'.map (fun d => Char.ofNat (48 + d)) := by
        simp [List.dropWhile_cons, hd.2.2.1]
      simp only [List.nil_append, List.map_cons] at hval ⊢
      unfold toInt
      rw [hdrop]
      split
      · rename_i heq
        exact absurd (List.cons.inj heq).1 hd.2.2.2.1
      · rename_i heq
        exact absurd (List.cons.inj heq).1 hd.2.2.2.2.1
      · rw [hval]; simp
  · subst h
    have hdrop : ('-' :: ds.map (fun d => Char.ofNat (48 + d))).dropWhile isSpace
        = '-' :: ds.map (fun d => Char.ofNat (48 + d)) := by
      rw [List.dropWhile_cons]; rfl
    unfold toInt
    simp only [List.singleton_append]
    rw [hdrop]
    simp only [hval, if_true]
  · subst h
    have hdrop : ('+' :: ds.map (fun d => Char.ofNat (48 + d))).dropWhile isSpace
        = '+' :: ds.map (fun d => Char.ofNat (48 + d)) := by
      rw [List.dropWhile_cons]; rfl
    unfold toInt
    simp only [List.singleton_append]
    rw [hdrop]
    simp only [hval]
    rw [if_neg (by decide)]

/-! ## Claims about the tick -/

theorem dispatch_same (tok : List Char) : dispatch tok tok = [] := by
  unfold dispatch
  simp

theorem dispatch_hold (tok prev : List Char) (h : startsWith tok "Hold".toList = true)
    (hne : tok ≠ prev) : dispatch tok prev = [4] := by
  have h1 : tok ≠ "Idle".toList := by intro e; rw [e] at h; revert h; decide
  have h2 : tok ≠ "Home".toList := by intro e; rw [e] at h; revert h; decide
  have h3 : tok ≠ "Alarm".toList := by intro e; rw [e] at h; revert h; decide
  unfold dispatch
  simp only [ne_eq, hne, not_false_eq_true, if_true, h1, h2, h3, if_false, h]

theorem dispatch_length_of_ne (tok prev : List Char) (hne : tok ≠ prev) :
    (dispatch tok prev).length = 1 := by
  unfold dispatch
  rw [if_pos hne]
  repeat' split
  all_goals rfl

/-- C3 (as stated, refuted): from the initial members (state "UNKNOWN", position 0), a
tick whose retained line has no `|`, one whose line has no second `|`, and one whose
position token starts with "WPos:" each overwrite the state, and the last two the
position, and each applies a preset. -/
theorem C3_malformed_line_overwrites :
    (FluidNcUsermod.init.loop ⟨201, ["<Idle".toList]⟩).1.status = "Idle".toList ∧
    (FluidNcUsermod.init.loop ⟨201, ["<Idle".toList]⟩).2 = [1] ∧
    (FluidNcUsermod.init.loop ⟨201, ["<Run|MPos:5.000".toList]⟩).1.status = "Run".toList ∧
    (FluidNcUsermod.init.loop ⟨201, ["<Run|MPos:5.000".toList]⟩).1.mPosX = 5 ∧
    (FluidNcUsermod.init.loop ⟨201, ["<Run|MPos:5.000".toList]⟩).2 = [5] ∧
    (FluidNcUsermod.init.loop
      ⟨201, ["<Jog|WPos:7.000,0.000,0.000|FS:0,0>".toList]⟩).1.status = "Jog".toList ∧
    (FluidNcUsermod.init.loop
      ⟨201, ["<Jog|WPos:7.000,0.000,0.000|FS:0,0>".toList]⟩).1.mPosX = 7 ∧
    (FluidNcUsermod.init.loop
      ⟨201, ["<Jog|WPos:7.000,0.000,0.000|FS:0,0>".toList]⟩).2 = [6] := by
  decide

/-- C3 (amended): a processing tick whose retained line starts with `<` is parsed
whether or not the line is well formed: the state becomes the text between the `<`
and the first `|` (the whole rest of the line when there is no `|`), the previous
state is set to the same text, a preset is applied exactly when that text differs
from the previous state, and when the line has no `|` the position becomes 0. -/
theorem C3_malformed_line_parsed (s : FluidNcUsermod) (t : Tick) (rest : List Char)
    (hp : s.Processes t) (hline : drainLines t.lines = '<' :: rest)
    (hlen : (drainLines t.lines).length < 4294967296) :
    (s.loop t).1.status = rest.takeWhile (fun c => c != '|') ∧
    (s.loop t).1.statusPrev = rest.takeWhile (fun c => c != '|') ∧
    ((s.loop t).2 = [] ↔ rest.takeWhile (fun c => c != '|') = s.statusPrev) ∧
    ((s.loop t).2 ≠ [] → (s.loop t).2.length = 1) ∧
    ('|' ∉ rest → (s.loop t).1.mPosX = 0) := by
  have hc : '<' ≠ '|' := by decide
  rw [hline] at hlen
  have htok : t.token = rest.takeWhile (fun c => c != '|') := by
    unfold Tick.token
    rw [hline]
    rcases split_at_bar rest with ⟨hno, htw⟩ | ⟨m, b, hrest, hm, htw⟩
    · rw [parseStatus_no_bar '<' rest hc hno hlen, htw]
    · rw [htw]
      subst hrest
      have hb := parseStatus_bar '<' m b hc hm hlen
      rw [List.cons_append] at hb
      rw [hb]
  rw [loop_of_processes s t hp, htok]
  refine ⟨rfl, rfl, ?_, ?_, ?_⟩
  · constructor
    · intro h
      by_contra hne
      have := dispatch_length_of_ne _ _ hne
      simp only at h
      rw [h] at this
      exact absurd this (by decide)
    · intro h
      simp only [h, dispatch_same]
  · intro h
    by_cases heq : rest.takeWhile (fun c => c != '|') = s.statusPrev
    · simp only [heq, dispatch_same] at h
      exact absurd rfl h
    · exact dispatch_length_of_ne _ _ heq
  · intro hno
    simp only
    rw [hline, parseStatus_no_bar '<' rest hc hno hlen]

/-- C3 at the initial members and the line "<Idle", which has no delimiter. -/
theorem C3_malformed_line_parsed_witness :
    (FluidNcUsermod.init.loop ⟨201, ["<Idle".toList]⟩).1.status
      = "Idle".toList.takeWhile (fun c => c != '|') ∧
    (FluidNcUsermod.init.loop ⟨201, ["<Idle".toList]⟩).1.mPosX = 0 := by
  have h := C3_malformed_line_parsed FluidNcUsermod.init ⟨201, ["<Idle".toList]⟩
    "Idle".toList (by decide) (by decide) (by decide)
  exact ⟨h.1, h.2.2.2.2 (by decide)⟩

/-- C4: a processing tick whose retained line is `<` S `|MPos:` I `.` followed by any
text (in particular by F `,` ... `|` ...), where S has no `|` and I is a decimal
numeral (an optional sign and at least one digit) whose value lies in the range of
`int`, sets the state to S and the position to the value of I; the digits after the
`.` are dropped. -/
theorem C4_wellformed_line_parsed (s : FluidNcUsermod) (t : Tick) (S sign tail : List Char)
    (ds : List Nat) (hp : s.Processes t)
    (hline : drainLines t.lines =
      '<' :: (S ++ '|' :: ("MPos:".toList ++ (sign ++ ds.map (fun d => Char.ofNat (48 + d)))
        ++ '.' :: tail)))
    (hlen : (drainLines t.lines).length < 4294967296)
    (hS : '|' ∉ S) (hsign : sign = [] ∨ sign = ['-'] ∨ sign = ['+'])
    (hds : ds ≠ []) (hdig : ∀ d ∈ ds, d < 10)
    (hrange : Nat.ofDigits 10 ds.reverse ≤ if sign = ['-'] then 2147483648 else 2147483647) :
    (s.loop t).1.status = S ∧
    (s.loop t).1.mPosX =
      if sign = ['-'] then -((Nat.ofDigits 10 ds.reverse : Nat) : Int)
      else ((Nat.ofDigits 10 ds.reverse : Nat) : Int) := by
  have hc : '<' ≠ '|' := by decide
  rw [hline] at hlen
  -- the numeral and the text in front of it hold neither `|` nor `.`
  have hnum : ∀ x ∈ sign ++ ds.map (fun d => Char.ofNat (48 + d)), x ≠ '|' ∧ x ≠ '.' := by
    intro x hx
    rcases List.mem_append.mp hx with h | h
    · rcases hsign with e | e | e <;> subst e
      · simp at h
      · simp only [List.mem_singleton] at h; subst h; decide
      · simp only [List.mem_singleton] at h; subst h; decide
    · obtain ⟨d, hd, rfl⟩ := List.mem_map.mp h
      have := digit_char_facts d (hdig d hd)
      exact ⟨this.2.2.2.2.2.2, this.2.2.2.2.2.1⟩
  have hpre : ∀ x ∈ "MPos:".toList ++ (sign ++ ds.map (fun d => Char.ofNat (48 + d))),
      x ≠ '|' ∧ x ≠ '.' := by
    intro x hx
    rcases List.mem_append.mp hx with h | h
    · have hlit : ∀ y ∈ "MPos:".toList, y ≠ '|' ∧ y ≠ '.' := by decide
      exact hlit x h
    · exact hnum x h
  have hb := parseStatus_bar '<' S
    ("MPos:".toList ++ (sign ++ ds.map (fun d => Char.ofNat (48 + d))) ++ '.' :: tail) hc hS hlen
  rw [List.cons_append] at hb
  rw [takeWhile_append_of_all _ _ _ (fun x hx => by simpa using (hpre x hx).1),
    List.takeWhile_cons_of_pos (by decide)] at hb
  have hdot : '.' ∉ '|' :: ("MPos:".toList ++ (sign ++ ds.map (fun d => Char.ofNat (48 + d)))) := by
    intro hmem
    rcases List.mem_cons.mp hmem with h | h
    · exact absurd h (by decide)
    · exact (hpre _ h).2 rfl
  have hidx := indexOf_append_cons
    ('|' :: ("MPos:".toList ++ (sign ++ ds.map (fun d => Char.ofNat (48 + d)))))
    ((tail.takeWhile (fun c => c != '|'))) '.' hdot
  have hmposlen : ('|' :: ("MPos:".toList ++ (sign ++ ds.map (fun d => Char.ofNat (48 + d))))).length
      = 6 + (sign ++ ds.map (fun d => Char.ofNat (48 + d))).length := by
    simp only [List.length_cons, List.length_append]
    have : "MPos:".toList.length = 5 := by decide
    omega
  have hI : (sign ++ ds.map (fun d => Char.ofNat (48 + d))).length < 4294967296 - 6 := by
    have h5 : "MPos:".toList.length = 5 := by decide
    simp only [List.length_cons, List.length_append, h5] at hlen ⊢
    omega
  rw [List.cons_append] at hidx
  rw [hidx, hmposlen, toU32_natCast _ (by omega)] at hb
  have hsub : substring ('|' :: ("MPos:".toList ++ (sign ++ ds.map (fun d => Char.ofNat (48 + d)))
        ++ '.' :: tail.takeWhile (fun c => c != '|'))) 6
        (6 + (sign ++ ds.map (fun d => Char.ofNat (48 + d))).length)
      = sign ++ ds.map (fun d => Char.ofNat (48 + d)) := by
    rw [substring_mid _ _ _ (by omega) (by simp) (by simp; omega)]
    have e : '|' :: ("MPos:".toList ++ (sign ++ ds.map (fun d => Char.ofNat (48 + d)))
        ++ '.' :: tail.takeWhile (fun c => c != '|'))
        = "|MPos:".toList ++ ((sign ++ ds.map (fun d => Char.ofNat (48 + d)))
          ++ '.' :: tail.takeWhile (fun c => c != '|')) := by
      simp
    rw [e, show (6 : Nat) = "|MPos:".toList.length from by decide,
      List.take_append, List.drop_left, List.take_left]
  rw [hsub, toInt_numeral sign ds hsign hds hdig] at hb
  have hclamp : clampI32 (if sign = ['-'] then -((Nat.ofDigits 10 ds.reverse : Nat) : Int)
      else ((Nat.ofDigits 10 ds.reverse : Nat) : Int))
      = if sign = ['-'] then -((Nat.ofDigits 10 ds.reverse : Nat) : Int)
        else ((Nat.ofDigits 10 ds.reverse : Nat) : Int) := by
    unfold clampI32
    by_cases hs : sign = ['-']
    · simp only [hs, if_true] at hrange ⊢
      split
      · omega
      · split
        · omega
        · rfl
    · simp only [hs, if_false] at hrange ⊢
      split
      · omega
      · split
        · omega
        · rfl
  rw [hclamp] at hb
  rw [loop_of_processes s t hp]
  unfold Tick.token
  rw [hline, hb]
  exact ⟨rfl, rfl⟩

/-- C4 at Scenario D: the line "<Idle|MPos:12.500,0.000,0.000|FS:0,0>" gives the state
"Idle" and the position 12. -/
theorem C4_wellformed_line_parsed_witness :
    (FluidNcUsermod.init.loop
      ⟨201, ["<Idle|MPos:12.500,0.000,0.000|FS:0,0>".toList]⟩).1.status = "Idle".toList ∧
    (FluidNcUsermod.init.loop
      ⟨201, ["<Idle|MPos:12.500,0.000,0.000|FS:0,0>".toList]⟩).1.mPosX = 12 := by
  have h := C4_wellformed_line_parsed FluidNcUsermod.init
    ⟨201, ["<Idle|MPos:12.500,0.000,0.000|FS:0,0>".toList]⟩
    "Idle".toList [] "500,0.000,0.000|FS:0,0>".toList [1, 2]
    (by decide) (by decide) (by decide) (by decide) (by decide) (by decide) (by decide)
    (by decide)
  refine ⟨h.1, ?_⟩
  rw [h.2]
  decide

/-- C5: on a processing tick whose state token equals the previous state no preset is
applied; on one whose state token differs, `applyPreset` is called exactly once, with
1 for "Idle", 2 for "Home", 3 for "Alarm", 4 for a token starting with "Hold", 5 for
"Run", 6 for "Jog" and 7 for every other token. -/
theorem C5_preset_table (s : FluidNcUsermod) (t : Tick) (hp : s.Processes t) :
    (t.token = s.statusPrev → (s.loop t).2 = []) ∧
    (t.token ≠ s.statusPrev →
      (t.token = "Idle".toList → (s.loop t).2 = [1]) ∧
      (t.token = "Home".toList → (s.loop t).2 = [2]) ∧
      (t.token = "Alarm".toList → (s.loop t).2 = [3]) ∧
      (startsWith t.token "Hold".toList = true → (s.loop t).2 = [4]) ∧
      (t.token = "Run".toList → (s.loop t).2 = [5]) ∧
      (t.token = "Jog".toList → (s.loop t).2 = [6]) ∧
      (t.token ≠ "Idle".toList → t.token ≠ "Home".toList → t.token ≠ "Alarm".toList →
        startsWith t.token "Hold".toList = false → t.token ≠ "Run".toList →
        t.token ≠ "Jog".toList → (s.loop t).2 = [7])) := by
  rw [loop_of_processes s t hp]
  refine ⟨fun h => by simp only [h, dispatch_same], fun hne => ⟨?_, ?_, ?_, ?_, ?_, ?_, ?_⟩⟩
  · intro h
    rw [h] at hne
    simp only [h, dispatch, ne_eq, hne, not_false_eq_true, if_true]
  · intro h
    rw [h] at hne
    simp only [h, dispatch, ne_eq, hne, not_false_eq_true, if_true]
    decide
  · intro h
    rw [h] at hne
    simp only [h, dispatch, ne_eq, hne, not_false_eq_true, if_true]
    decide
  · intro h
    exact dispatch_hold _ _ h hne
  · intro h
    rw [h] at hne
    simp only [h, dispatch, ne_eq, hne, not_false_eq_true, if_true]
    decide
  · intro h
    rw [h] at hne
    simp only [h, dispatch, ne_eq, hne, not_false_eq_true, if_true]
    decide
  · intro h1 h2 h3 h4 h5 h6
    simp only [dispatch, ne_eq, hne, not_false_eq_true, if_true, h1, h2, h3, h4, h5, h6,
      if_false, Bool.false_eq_true]

/-- C5 at the initial members and a "Hold:0" report: preset 4 is applied. -/
theorem C5_preset_table_witness :
    (FluidNcUsermod.init.loop
      ⟨201, ["<Hold:0|MPos:12.500,0.000,0.000|FS:0,0>".toList]⟩).2 = [4] :=
  ((C5_preset_table FluidNcUsermod.init
      ⟨201, ["<Hold:0|MPos:12.500,0.000,0.000|FS:0,0>".toList]⟩ (by decide)).2
    (by decide)).2.2.2.1 (by decide)

theorem statusPrev_after_processes (s : FluidNcUsermod) (t : Tick) (h : s.Processes t) :
    (s.loop t).1.statusPrev = t.token := by
  rw [loop_of_processes s t h]

/-- While the state token stays equal to the previous state, consecutive processing
ticks apply no preset. -/
theorem run_same_token (tok : List Char) (ts : List Tick) (s : FluidNcUsermod)
    (hprev : s.statusPrev = tok) (hall : s.ProcessesAll tok ts) :
    (s.run ts).2 = List.replicate ts.length [] := by
  induction ts generalizing s with
  | nil => rfl
  | cons t ts ih =>
    obtain ⟨hp, htok, hrest⟩ := hall
    have hprev2 : (s.loop t).1.statusPrev = tok := by
      rw [statusPrev_after_processes s t hp, htok]
    have h2 : (s.loop t).2 = [] := by
      rw [loop_of_processes s t hp, htok, hprev, dispatch_same]
    simp only [FluidNcUsermod.run, List.length_cons, List.replicate_succ, h2, ih _ hprev2 hrest]

/-- C6: n >= 1 consecutive processing ticks that all carry the state token S, S being
different from the previous state at the start, make exactly one `applyPreset` call
in total: one call on the first tick and none on the ticks 2..n. -/
theorem C6_fires_once (s : FluidNcUsermod) (tok : List Char) (ts : List Tick)
    (hne : ts ≠ []) (hall : s.ProcessesAll tok ts) (hdiff : tok ≠ s.statusPrev) :
    ∃ id, (s.run ts).2 = [id] :: List.replicate (ts.length - 1) [] ∧
      ((s.run ts).2.map List.length).sum = 1 := by
  cases ts with
  | nil => exact absurd rfl hne
  | cons t ts =>
    obtain ⟨hp, htok, hrest⟩ := hall
    have hprev2 : (s.loop t).1.statusPrev = tok := by
      rw [statusPrev_after_processes s t hp, htok]
    have hlen : ((s.loop t).2).length = 1 := by
      rw [loop_of_processes s t hp, htok]
      exact dispatch_length_of_ne _ _ hdiff
    obtain ⟨id, hid⟩ : ∃ id, (s.loop t).2 = [id] := List.length_eq_one.mp hlen
    refine ⟨id, ?_, ?_⟩
    · simp only [FluidNcUsermod.run, hid, run_same_token tok ts _ hprev2 hrest,
        List.length_cons, Nat.add_sub_cancel]
    · simp only [FluidNcUsermod.run, hid, run_same_token tok ts _ hprev2 hrest,
        List.map_cons, List.length_singleton, List.map_replicate, List.length_nil,
        List.sum_cons, List.sum_replicate, smul_eq_mul, Nat.mul_zero, Nat.add_zero]

/-- C6 at the initial members and ten consecutive "Run" reports. -/
theorem C6_fires_once_witness :
    ∃ id, (FluidNcUsermod.init.run tenRunTicks).2 = [id] :: List.replicate (10 - 1) [] ∧
      ((FluidNcUsermod.init.run tenRunTicks).2.map List.length).sum = 1 :=
  C6_fires_once FluidNcUsermod.init "Run".toList tenRunTicks (by decide) (by decide) (by decide)

/-- C7 (as stated, refuted): a tick reporting "Hold:1" right after a tick reporting
"Hold:0" applies preset 4 again. -/
theorem C7_hold_variants_fire_again :
    (FluidNcUsermod.init.run
      [⟨201, ["<Hold:0|MPos:12.500,0.000,0.000|FS:0,0>".toList]⟩,
       ⟨402, ["<Hold:1|MPos:12.500,0.000,0.000|FS:0,0>".toList]⟩]).2 = [[4], [4]] := by
  decide

/-- C7 (amended): Hold variants collapse only in the choice of the preset. Transition
detection compares the state tokens as texts: of two consecutive processing ticks
whose tokens both start with "Hold", the second applies no preset when its token is
the same text as the first one's, and applies preset 4 once more when it is not. -/
theorem C7_hold_variants_compared_as_text (s : FluidNcUsermod) (t1 t2 : Tick)
    (hp1 : s.Processes t1) (hp2 : (s.loop t1).1.Processes t2)
    (h1 : startsWith t1.token "Hold".toList = true)
    (h2 : startsWith t2.token "Hold".toList = true) :
    (s.run [t1, t2]).2 =
      [if t1.token = s.statusPrev then [] else [4],
       if t2.token = t1.token then [] else [4]] := by
  have hprev := statusPrev_after_processes s t1 hp1
  have hfirst : (s.loop t1).2 = if t1.token = s.statusPrev then [] else [4] := by
    rw [loop_of_processes s t1 hp1]
    by_cases he : t1.token = s.statusPrev
    · simp only [he, dispatch_same, if_true]
    · simp only [he, if_false, dispatch_hold _ _ h1 he]
  have hsecond : ((s.loop t1).1.loop t2).2 = if t2.token = t1.token then [] else [4] := by
    rw [loop_of_processes _ t2 hp2]
    simp only [hprev]
    by_cases he : t2.token = t1.token
    · simp only [he, dispatch_same, if_true]
    · simp only [he, if_false, dispatch_hold _ _ h2 he]
  simp only [FluidNcUsermod.run, hfirst, hsecond]

/-- C7 at the initial members and two consecutive "Hold:0" reports: the first applies
preset 4, the second applies none. -/
theorem C7_hold_variants_compared_as_text_witness :
    (FluidNcUsermod.init.run
      [⟨201, ["<Hold:0|MPos:12.500,0.000,0.000|FS:0,0>".toList]⟩,
       ⟨402, ["<Hold:0|MPos:12.600,0.000,0.000|FS:0,0>".toList]⟩]).2 = [[4], []] := by
  have h := C7_hold_variants_compared_as_text FluidNcUsermod.init
    ⟨201, ["<Hold:0|MPos:12.500,0.000,0.000|FS:0,0>".toList]⟩
    ⟨402, ["<Hold:0|MPos:12.600,0.000,0.000|FS:0,0>".toList]⟩
    (by decide) (by decide) (by decide) (by decide)
  rw [h]
  decide

/-! ## Claims about the line reader and the state gate -/

theorem drainLines_append_singleton (lines : List (List Char)) (x : List Char) :
    drainLines (lines ++ [x]) = if startsWith x "<".toList then x else drainLines lines := by
  unfold drainLines
  rw [List.foldl_append]
  rfl

/-- The line retained by the read loop is the last line that begins with `<`, and the
empty line when there is none. -/
theorem drainLines_eq_lastStatusLine (lines : List (List Char)) :
    drainLines lines = (lastStatusLine lines).getD [] := by
  induction lines using List.reverseRecOn with
  | nil => rfl
  | append_singleton l x ih =>
    rw [drainLines_append_singleton]
    unfold lastStatusLine at ih ⊢
    rw [List.filter_append]
    by_cases hx : startsWith x "<".toList = true
    · have hf : [x].filter (fun l => startsWith l "<".toList) = [x] := by
        simp only [List.filter, hx]
      rw [if_pos hx, hf, List.getLast?_append_of_ne_nil _ (List.cons_ne_nil x []),
        List.getLast?_singleton]
      rfl
    · have hf : [x].filter (fun l => startsWith l "<".toList) = [] := by
        have hx2 : startsWith x "<".toList = false := by
          cases hb : startsWith x "<".toList
          · rfl
          · exact absurd hb hx
        simp only [List.filter, hx2]
      rw [if_neg hx, hf, List.append_nil]
      exact ih

theorem drainLines_lastStatusLine_toList (lines : List (List Char)) :
    drainLines (lastStatusLine lines).toList = (lastStatusLine lines).getD [] := by
  cases h : lastStatusLine lines with
  | none => rfl
  | some L =>
    have hmem : L ∈ lines.filter (fun l => startsWith l "<".toList) := by
      unfold lastStatusLine at h
      exact List.mem_of_getLast?_eq_some h
    have hp : startsWith L "<".toList = true := by
      simpa using (List.mem_filter.mp hmem).2
    show (if startsWith L "<".toList then L else []) = L
    rw [if_pos hp]

theorem loop_congr_drainLines (s : FluidNcUsermod) (m : Nat) (l1 l2 : List (List Char))
    (h : drainLines l1 = drainLines l2) : s.loop ⟨m, l1⟩ = s.loop ⟨m, l2⟩ := by
  unfold FluidNcUsermod.loop
  simp only [h]

/-- C11: whatever lines one tick of `loop()` drains, the call has the same result
(the members, among them status, statusPrev and mPosX, and the preset applied) as a
tick at the same time that receives only the last of these lines that begins with
`<`, or no line when none does; the earlier `<` lines and all other lines have no
effect. -/
theorem C11_only_last_status_line_counts (s : FluidNcUsermod) (millis : Nat)
    (lines : List (List Char)) :
    s.loop ⟨millis, lines⟩ = s.loop ⟨millis, (lastStatusLine lines).toList⟩ := by
  apply loop_congr_drainLines
  rw [drainLines_eq_lastStatusLine, drainLines_lastStatusLine_toList]

theorem drainLines_of_no_status_line (lines : List (List Char))
    (h : ∀ l ∈ lines, startsWith l "<".toList = false) : drainLines lines = [] := by
  rw [drainLines_eq_lastStatusLine]
  unfold lastStatusLine
  have : lines.filter (fun l => startsWith l "<".toList) = [] := by
    rw [List.filter_eq_nil_iff]
    intro l hl
    rw [h l hl]
    decide
  rw [this]
  rfl

theorem pixelWrites_congr_lastTime (s : FluidNcUsermod) (tg : Target) (m : Nat) :
    ({ s with lastTime := m }).pixelWrites tg = s.pixelWrites tg := by
  unfold FluidNcUsermod.pixelWrites FluidNcUsermod.handleOverlayDraw
  have hidx : ({ s with lastTime := m }).positionIndex tg = s.positionIndex tg := rfl
  simp only [hidx]
  by_cases hm : s.status = "Jog".toList ∨ s.status = "Run".toList
  · rw [if_pos hm, if_pos hm]
    by_cases hp : s.positionLedCount > 0
    · by_cases he : s.positionLedCount % 2 = 0 <;> simp [hp, he]
    · simp [hp]
  · rw [if_neg hm, if_neg hm]

/-- C12 (Scenario F): a tick of `loop()` whose lines include none that starts with `<`
(the tick without any line among them) leaves status, statusPrev and mPosX as they
were and applies no preset, and `handleOverlayDraw` makes the same pixel writes after
the tick as before it. -/
theorem C12_no_status_line_no_change (s : FluidNcUsermod) (t : Tick) (tg : Target)
    (h : ∀ l ∈ t.lines, startsWith l "<".toList = false) :
    (s.loop t).1.status = s.status ∧ (s.loop t).1.statusPrev = s.statusPrev ∧
    (s.loop t).1.mPosX = s.mPosX ∧ (s.loop t).2 = [] ∧
    (s.loop t).1.pixelWrites tg = s.pixelWrites tg := by
  have hnp : ¬ s.Processes t := fun hp => hp.2.2 (drainLines_of_no_status_line _ h)
  rcases loop_of_not_processes s t hnp with h1 | h1 <;> rw [h1]
  · exact ⟨rfl, rfl, rfl, rfl, rfl⟩
  · exact ⟨rfl, rfl, rfl, rfl, pixelWrites_congr_lastTime s tg t.millis⟩

/-- C12 at Scenario A and a tick that brings "ok" and an empty line only. -/
theorem C12_no_status_line_no_change_witness :
    (scenarioA.loop ⟨201, ["ok".toList, []]⟩).1.status = "Run".toList ∧
    (scenarioA.loop ⟨201, ["ok".toList, []]⟩).1.mPosX = 500 ∧
    (scenarioA.loop ⟨201, ["ok".toList, []]⟩).2 = [] ∧
    (scenarioA.loop ⟨201, ["ok".toList, []]⟩).1.pixelWrites Target.nearest
      = scenarioA.pixelWrites Target.nearest := by
  have h := C12_no_status_line_no_change scenarioA ⟨201, ["ok".toList, []]⟩ Target.nearest
    (by decide)
  exact ⟨h.1, h.2.2.1, h.2.2.2.1, h.2.2.2.2⟩

/-- C13: when the stored state is neither "Run" nor "Jog", whatever else it is and
whatever the configuration, `handleOverlayDraw` returns without a pixel write and
leaves the members as they were. -/
theorem C13_overlay_gated_on_state (s : FluidNcUsermod) (tg : Target)
    (hrun : s.status ≠ "Run".toList) (hjog : s.status ≠ "Jog".toList) :
    s.handleOverlayDraw tg = (s, []) ∧ s.pixelWrites tg = [] := by
  have hm : ¬ s.Moving := by
    unfold FluidNcUsermod.Moving
    rintro (h | h)
    · exact hjog h
    · exact hrun h
  have h := handleOverlayDraw_of_not_moving s tg hm
  refine ⟨h, ?_⟩
  unfold FluidNcUsermod.pixelWrites
  rw [h]

/-- C13 at the configuration of Scenario A with the states "UNKNOWN" and "Hold:0", and
with a zero strip length in state "Idle". -/
theorem C13_overlay_gated_on_state_witness :
    ({ scenarioA with status := "UNKNOWN".toList }).pixelWrites Target.nearest = [] ∧
    ({ scenarioA with status := "Hold:0".toList }).pixelWrites Target.truncating = [] ∧
    ({ scenarioA with status := "Idle".toList, ledStripLength := 0 }).pixelWrites
      Target.nearest = [] :=
  ⟨(C13_overlay_gated_on_state { scenarioA with status := "UNKNOWN".toList } Target.nearest
      (by decide) (by decide)).2,
   (C13_overlay_gated_on_state { scenarioA with status := "Hold:0".toList } Target.truncating
      (by decide) (by decide)).2,
   (C13_overlay_gated_on_state { scenarioA with status := "Idle".toList, ledStripLength := 0 }
      Target.nearest (by decide) (by decide)).2⟩

theorem loop_keeps_status_eq_statusPrev (s : FluidNcUsermod) (t : Tick)
    (h : s.status = s.statusPrev) : (s.loop t).1.status = (s.loop t).1.statusPrev := by
  by_cases hp : s.Processes t
  · rw [loop_of_processes s t hp]
  · rcases loop_of_not_processes s t hp with h1 | h1 <;> rw [h1] <;> exact h

theorem calls_keep_status_eq_statusPrev (cs : List Call) (s : FluidNcUsermod)
    (h : s.status = s.statusPrev) : (s.calls cs).status = (s.calls cs).statusPrev := by
  induction cs generalizing s with
  | nil => exact h
  | cons c cs ih =>
    have hstep : (s.call c).status = (s.call c).statusPrev := by
      cases c with
      | loop t => exact loop_keeps_status_eq_statusPrev s t h
      | enable b => exact h
    exact ih _ hstep

/-- C18: the members start with status = statusPrev = "UNKNOWN", and after every
sequence of calls of `loop()` (on any input) and of `enable()` status equals
statusPrev; so on a processing tick that follows, the state that the parsed token is
compared with, statusPrev, is the stored status, and the presets applied are those
of the comparison of the token with the stored status. -/
theorem C18_status_eq_statusPrev (cs : List Call) :
    FluidNcUsermod.init.status = "UNKNOWN".toList ∧
    FluidNcUsermod.init.statusPrev = "UNKNOWN".toList ∧
    (FluidNcUsermod.init.calls cs).status = (FluidNcUsermod.init.calls cs).statusPrev ∧
    ∀ t, (FluidNcUsermod.init.calls cs).Processes t →
      ((FluidNcUsermod.init.calls cs).loop t).2 =
        dispatch t.token (FluidNcUsermod.init.calls cs).status := by
  have hinv := calls_keep_status_eq_statusPrev cs FluidNcUsermod.init rfl
  refine ⟨rfl, rfl, hinv, ?_⟩
  intro t hp
  rw [loop_of_processes _ t hp, hinv]

/-- C18 at a run of calls: a Hold report, a disabling, a tick while disabled, an
enabling and a tick without a status line. -/
theorem C18_status_eq_statusPrev_witness :
    (FluidNcUsermod.init.calls
      [.loop ⟨201, ["<Hold:0|MPos:1.000,0.000,0.000|FS:0,0>".toList]⟩, .enable false,
       .loop ⟨402, ["<Run|MPos:2.000,0.000,0.000|FS:0,0>".toList]⟩, .enable true,
       .loop ⟨603, ["ok".toList]⟩]).status = "Hold:0".toList ∧
    (FluidNcUsermod.init.calls
      [.loop ⟨201, ["<Hold:0|MPos:1.000,0.000,0.000|FS:0,0>".toList]⟩, .enable false,
       .loop ⟨402, ["<Run|MPos:2.000,0.000,0.000|FS:0,0>".toList]⟩, .enable true,
       .loop ⟨603, ["ok".toList]⟩]).statusPrev = "Hold:0".toList := by
  have h := (C18_status_eq_statusPrev
    [.loop ⟨201, ["<Hold:0|MPos:1.000,0.000,0.000|FS:0,0>".toList]⟩, .enable false,
     .loop ⟨402, ["<Run|MPos:2.000,0.000,0.000|FS:0,0>".toList]⟩, .enable true,
     .loop ⟨603, ["ok".toList]⟩]).2.2.1
  refine ⟨by decide, ?_⟩
  rw [← h]
  decide

/-! ## Claims about the configuration and the connection -/

theorem getJsonValue_fst {α : Type} (element : Option α) (destination : α) :
    (getJsonValue element destination).1 = element.isSome := by
  cases element <;> rfl

theorem getJsonValue_snd {α : Type} (element : Option α) (destination : α) :
    (getJsonValue element destination).2 = element.getD destination := by
  cases element <;> rfl

theorem readFromConfig_snd (s : FluidNcUsermod) (root : Option FluidNcJson) :
    (s.readFromConfig root).2 =
      (root.isSome && (root.bind FluidNcJson.enabled).isSome &&
        (root.bind FluidNcJson.fluidNcUrl).isSome &&
        (root.bind FluidNcJson.fluidNcTelnetPort).isSome &&
        (root.bind FluidNcJson.widthX).isSome &&
        (root.bind FluidNcJson.positionLedCount).isSome &&
        (root.bind FluidNcJson.positionOffsetX).isSome &&
        (root.bind FluidNcJson.reversePositionX).isSome &&
        (root.bind FluidNcJson.ledStripLength).isSome) := by
  simp only [FluidNcUsermod.readFromConfig, getJsonValue_fst]

theorem readFromConfig_fst (s : FluidNcUsermod) (root : Option FluidNcJson) :
    (s.readFromConfig root).1 =
      { s with
        enabled := (root.bind FluidNcJson.enabled).getD s.enabled
        fluidNcUrl := (root.bind FluidNcJson.fluidNcUrl).getD s.fluidNcUrl
        fluidNcTelnetPort := (root.bind FluidNcJson.fluidNcTelnetPort).getD s.fluidNcTelnetPort
        widthX := (root.bind FluidNcJson.widthX).getD s.widthX
        positionLedCount := (root.bind FluidNcJson.positionLedCount).getD s.positionLedCount
        positionOffsetX := (root.bind FluidNcJson.positionOffsetX).getD s.positionOffsetX
        reversePositionX := (root.bind FluidNcJson.reversePositionX).getD s.reversePositionX
        ledStripLength := (root.bind FluidNcJson.ledStripLength).getD s.ledStripLength } := by
  simp only [FluidNcUsermod.readFromConfig, getJsonValue_snd]

/-- C14: `readFromConfig` returns true exactly when the object "FluidNC" is there with
all eight fields; each field is read on its own: a field that is there is loaded into
its member, a field that is missing leaves its member as it was (all of them when
the object is missing), and the members outside the configuration are not touched. -/
theorem C14_readFromConfig (s : FluidNcUsermod) (root : Option FluidNcJson) :
    ((s.readFromConfig root).2 = true ↔
      ∃ top, root = some top ∧ top.enabled.isSome ∧ top.fluidNcUrl.isSome ∧
        top.fluidNcTelnetPort.isSome ∧ top.widthX.isSome ∧ top.positionLedCount.isSome ∧
        top.positionOffsetX.isSome ∧ top.reversePositionX.isSome ∧
        top.ledStripLength.isSome) ∧
    (root = none → (s.readFromConfig root).1 = s) ∧
    (∀ top, root = some top →
      (s.readFromConfig root).1.enabled = top.enabled.getD s.enabled ∧
      (s.readFromConfig root).1.fluidNcUrl = top.fluidNcUrl.getD s.fluidNcUrl ∧
      (s.readFromConfig root).1.fluidNcTelnetPort =
        top.fluidNcTelnetPort.getD s.fluidNcTelnetPort ∧
      (s.readFromConfig root).1.widthX = top.widthX.getD s.widthX ∧
      (s.readFromConfig root).1.positionLedCount =
        top.positionLedCount.getD s.positionLedCount ∧
      (s.readFromConfig root).1.positionOffsetX = top.positionOffsetX.getD s.positionOffsetX ∧
      (s.readFromConfig root).1.reversePositionX =
        top.reversePositionX.getD s.reversePositionX ∧
      (s.readFromConfig root).1.ledStripLength = top.ledStripLength.getD s.ledStripLength) ∧
    ((s.readFromConfig root).1.status = s.status ∧
      (s.readFromConfig root).1.statusPrev = s.statusPrev ∧
      (s.readFromConfig root).1.mPosX = s.mPosX ∧
      (s.readFromConfig root).1.ledCount = s.ledCount ∧
      (s.readFromConfig root).1.lastTime = s.lastTime ∧
      (s.readFromConfig root).1.fluidNcConnected = s.fluidNcConnected) := by
  rw [readFromConfig_snd, readFromConfig_fst]
  cases root with
  | none =>
    refine ⟨?_, fun _ => rfl, ?_, ⟨rfl, rfl, rfl, rfl, rfl, rfl⟩⟩
    · constructor
      · intro h
        exact absurd h (by simp)
      · rintro ⟨top, h, _⟩
        cases h
    · intro top h
      cases h
  | some top =>
    refine ⟨?_, ?_, ?_, ⟨rfl, rfl, rfl, rfl, rfl, rfl⟩⟩
    · simp only [Option.isSome_some, Option.some_bind, Bool.true_and, Bool.and_eq_true]
      constructor
      · rintro ⟨⟨⟨⟨⟨⟨⟨he, hu⟩, hp⟩, hw⟩, hc⟩, ho⟩, hr⟩, hl⟩
        exact ⟨top, rfl, he, hu, hp, hw, hc, ho, hr, hl⟩
      · rintro ⟨top2, h, he, hu, hp, hw, hc, ho, hr, hl⟩
        cases h
        exact ⟨⟨⟨⟨⟨⟨⟨he, hu⟩, hp⟩, hw⟩, hc⟩, ho⟩, hr⟩, hl⟩
    · intro h
      cases h
    · intro top2 h
      cases h
      exact ⟨rfl, rfl, rfl, rfl, rfl, rfl, rfl, rfl⟩

theorem whileNotConnected_of_connected (outcomes : List Bool) (s : FluidNcUsermod)
    (h : s.fluidNcConnected = true) : whileNotConnected outcomes s = some (s, []) := by
  cases outcomes <;> simp [whileNotConnected, h]

theorem whileNotConnected_failures (k : Nat) (rest : List Bool) (s : FluidNcUsermod)
    (h : s.fluidNcConnected = false) :
    whileNotConnected (List.replicate k false ++ true :: rest) s =
      some ({ s with fluidNcConnected := true },
        (List.replicate k
          [NetEvent.connect s.fluidNcUrl s.fluidNcTelnetPort, NetEvent.delay 500]).flatten ++
        [NetEvent.connect s.fluidNcUrl s.fluidNcTelnetPort,
          NetEvent.write "$Report/Interval=200\n".toList]) := by
  induction k with
  | zero =>
    simp only [List.replicate_zero, List.nil_append, whileNotConnected, h, Bool.false_eq_true,
      if_false, if_true, List.flatten_nil]
    rw [whileNotConnected_of_connected _ _ rfl]
    rfl
  | succ k ih =>
    rw [List.replicate_succ, List.cons_append, whileNotConnected, if_neg (by simp [h]),
      if_neg (by simp), ih]
    rfl

/-- C15: when the first k calls of `client.connect` fail and the next one succeeds,
`connected()`, called while not connected, returns with the connection flag set (and
initDone set), after exactly k+1 connect attempts to the configured host and port,
exactly k sleeps of 500 ms, one after each failed attempt, and exactly one write, of
the handshake "$Report/Interval=200\n", right after the successful attempt; called
while connected it makes no attempt, sends nothing and does not sleep. -/
theorem C15_connect_retries (s : FluidNcUsermod) (k : Nat) (rest : List Bool) :
    (s.fluidNcConnected = false →
      ∃ events, s.connected (List.replicate k false ++ true :: rest) =
          some ({ s with fluidNcConnected := true, initDone := true }, events) ∧
        events =
          (List.replicate k
            [NetEvent.connect s.fluidNcUrl s.fluidNcTelnetPort, NetEvent.delay 500]).flatten ++
          [NetEvent.connect s.fluidNcUrl s.fluidNcTelnetPort,
            NetEvent.write "$Report/Interval=200\n".toList] ∧
        events.count (NetEvent.connect s.fluidNcUrl s.fluidNcTelnetPort) = k + 1 ∧
        events.count (NetEvent.delay 500) = k ∧
        events.count (NetEvent.write "$Report/Interval=200\n".toList) = 1 ∧
        events.length = 2 * k + 2) ∧
    (s.fluidNcConnected = true →
      s.connected (List.replicate k false ++ true :: rest) =
        some ({ s with initDone := true }, [])) := by
  constructor
  · intro h
    refine ⟨_, ?_, rfl, ?_, ?_, ?_, ?_⟩
    · unfold FluidNcUsermod.connected
      rw [whileNotConnected_failures k rest s h]
      rfl
    · induction k with
      | zero => simp [List.count_cons]
      | succ k ih =>
        simp only [List.replicate_succ, List.flatten_cons, List.cons_append, List.nil_append,
          List.count_cons, ih]
        simp
    · induction k with
      | zero => simp [List.count_cons]
      | succ k ih =>
        simp only [List.replicate_succ, List.flatten_cons, List.cons_append, List.nil_append,
          List.count_cons, ih]
        simp
    · induction k with
      | zero => simp [List.count_cons]
      | succ k ih =>
        simp only [List.replicate_succ, List.flatten_cons, List.cons_append, List.nil_append,
          List.count_cons, ih]
        simp
    · induction k with
      | zero => simp
      | succ k ih =>
        simp only [List.replicate_succ, List.flatten_cons, List.cons_append, List.nil_append,
          List.length_cons, ih]
        omega
  · intro h
    unfold FluidNcUsermod.connected
    rw [whileNotConnected_of_connected _ _ h]
    rfl

/-- C15 at the initial members with two failed attempts before the successful one. -/
theorem C15_connect_retries_witness :
    FluidNcUsermod.init.connected [false, false, true] =
      some ({ FluidNcUsermod.init with fluidNcConnected := true, initDone := true },
        [NetEvent.connect [] 23, NetEvent.delay 500, NetEvent.connect [] 23,
          NetEvent.delay 500, NetEvent.connect [] 23,
          NetEvent.write "$Report/Interval=200\n".toList]) := by
  obtain ⟨events, h1, h2, _⟩ := (C15_connect_retries FluidNcUsermod.init 2 []).1 (by decide)
  rw [show [false, false, true] = List.replicate 2 false ++ [true] from rfl, h1, h2]
  rfl

/-! ## The position mapping in exact arithmetic -/

theorem tdiv_of_nonpos (a b : Int) (ha : a ≤ 0) (hb : 0 ≤ b) :
    a.tdiv b = -((-a) / b) := by
  have h : a = -(-a) := by omega
  rw [h, Int.neg_tdiv, Int.tdiv_eq_ediv (by omega) hb]
  simp

theorem tdiv_mono (a b c : Int) (hc : 0 < c) (hab : a ≤ b) : a.tdiv c ≤ b.tdiv c := by
  by_cases ha : 0 ≤ a
  · rw [Int.tdiv_eq_ediv ha (by omega), Int.tdiv_eq_ediv (by omega) (by omega)]
    exact Int.ediv_le_ediv hc hab
  · by_cases hb : 0 ≤ b
    · rw [tdiv_of_nonpos a c (by omega) (by omega), Int.tdiv_eq_ediv hb (by omega)]
      have h1 : 0 ≤ (-a) / c := Int.ediv_nonneg (by omega) (by omega)
      have h2 : 0 ≤ b / c := Int.ediv_nonneg hb (by omega)
      omega
    · rw [tdiv_of_nonpos a c (by omega) (by omega), tdiv_of_nonpos b c (by omega) (by omega)]
      have h1 : (-b) / c ≤ (-a) / c := Int.ediv_le_ediv hc (by omega)
      omega

theorem tdiv_inI32 (a c : Int) (hc : 0 < c) (ha : InI32 a) : InI32 (a.tdiv c) := by
  unfold InI32 at ha ⊢
  by_cases h0 : 0 ≤ a
  · rw [Int.tdiv_eq_ediv h0 (by omega)]
    have h1 : 0 ≤ a / c := Int.ediv_nonneg h0 (by omega)
    have h2 : a / c ≤ a := Int.ediv_le_self c h0
    omega
  · rw [tdiv_of_nonpos a c (by omega) (by omega)]
    have h1 : 0 ≤ (-a) / c := Int.ediv_nonneg (by omega) (by omega)
    have h2 : (-a) / c ≤ -a := Int.ediv_le_self c (by omega)
    omega

theorem wrapI32_of_inI32 (x : Int) (h : InI32 x) : wrapI32 x = x :=
  wrapI32_of_range x h.1 h.2

/-- Without overflow and with a positive divisor, the arithmetic of
`map(x, 0, b, 0, d)` gives the quotient of exact arithmetic. -/
theorem rescale_exact (r : Rescale) (x b d : Int) (hx : InI32 x) (hb : InI32 b) (hb0 : 0 < b)
    (hd : InI32 d) (hprod : InI32 (x * d)) (hnum : InI32 (r.numerator (x * d) b)) :
    rescale r x 0 b 0 d = r.quotient (x * d) b := by
  cases r
  · show wrapI32 (Int.tdiv (wrapI32 (wrapI32 (x - 0) * wrapI32 (d - 0))) (wrapI32 (b - 0)) + 0)
      = Int.tdiv (x * d) b
    simp only [Int.sub_zero, Int.add_zero]
    rw [wrapI32_of_inI32 b hb, wrapI32_of_inI32 x hx, wrapI32_of_inI32 d hd,
      wrapI32_of_inI32 _ hprod, wrapI32_of_inI32 _ (tdiv_inI32 _ _ hb0 hprod)]
  · have hnum2 : InI32 (x * d + Int.tdiv b 2) := hnum
    show wrapI32 (Int.tdiv (wrapI32 (wrapI32 (wrapI32 (x - 0) * wrapI32 (d - 0))
        + Int.tdiv (wrapI32 (b - 0)) 2)) (wrapI32 (b - 0)) + 0)
      = Int.tdiv (x * d + Int.tdiv b 2) b
    simp only [Int.sub_zero, Int.add_zero]
    rw [wrapI32_of_inI32 b hb, wrapI32_of_inI32 x hx, wrapI32_of_inI32 d hd,
      wrapI32_of_inI32 _ hprod, wrapI32_of_inI32 _ hnum2,
      wrapI32_of_inI32 _ (tdiv_inI32 _ _ hb0 hnum2)]

/-- The same for `map` on a target: a positive divisor is not an empty range. -/
theorem map_exact (tg : Target) (x b d : Int) (hx : InI32 x) (hb : InI32 b) (hb0 : 0 < b)
    (hd : InI32 d) (hprod : InI32 (x * d)) (hnum : InI32 (tg.rescale.numerator (x * d) b)) :
    map tg x 0 b 0 d = tg.rescale.quotient (x * d) b := by
  have hne : wrapI32 (b - 0) ≠ 0 := by
    rw [Int.sub_zero, wrapI32_of_inI32 b hb]
    omega
  unfold map
  rw [if_neg hne]
  exact rescale_exact _ x b d hx hb hb0 hd hprod hnum

/-- The quotient of `map` is monotone in the product, for a positive divisor. -/
theorem quotient_mono (r : Rescale) (a b c : Int) (hc : 0 < c) (hab : a ≤ b) :
    r.quotient a c ≤ r.quotient b c := by
  cases r
  · exact tdiv_mono a b c hc hab
  · exact tdiv_mono (a + Int.tdiv c 2) (b + Int.tdiv c 2) c hc (by omega)

/-- The computation of the centre index, written out step by step. -/
theorem positionIndex_unfold (s : FluidNcUsermod) (tg : Target) :
    s.positionIndex tg =
      if s.reversePositionX then
        wrapI32 (s.ledCount - wrapI32
          (map tg s.mPosX 0 (wrapI32 s.widthX) 0
              (wrapI32 (computeMachinePixels tg s.widthX s.ledStripLength s.ledCount - 1))
            + map tg s.positionOffsetX 0 s.ledStripLength 0 s.ledCount))
      else
        wrapI32
          (map tg s.mPosX 0 (wrapI32 s.widthX) 0
              (wrapI32 (computeMachinePixels tg s.widthX s.ledStripLength s.ledCount - 1))
            + map tg s.positionOffsetX 0 s.ledStripLength 0 s.ledCount) := rfl

/-- Without overflow, the centre index that `handleOverlayDraw()` computes is the one
of exact integer arithmetic. -/
theorem positionIndex_exact (s : FluidNcUsermod) (tg : Target) (hr : s.InRange)
    (hno : s.NoOverflow tg) (hw : 0 < s.widthX) (hl : 0 < s.ledStripLength) :
    s.positionIndex tg = s.exactFinalIndex tg := by
  obtain ⟨_, _, hoff, hlen, hcnt, hx⟩ := hr
  obtain ⟨hw31, hmp1, hprod, hnum, hoprod, honum, hsum, hrev⟩ := hno
  have hwI : InI32 (s.widthX : Int) := ⟨by omega, hw31⟩
  have h2 : map tg s.mPosX 0 (wrapI32 s.widthX) 0
      (wrapI32 (computeMachinePixels tg s.widthX s.ledStripLength s.ledCount - 1))
      = s.exactBase tg := by
    rw [wrapI32_of_inI32 _ hwI, wrapI32_of_inI32 _ hmp1]
    exact map_exact tg _ _ _ hx hwI (by omega) hmp1 hprod hnum
  have h3 : map tg s.positionOffsetX 0 s.ledStripLength 0 s.ledCount = s.exactOffset tg :=
    map_exact tg _ _ _ hoff hlen hl hcnt hoprod honum
  rw [positionIndex_unfold, h2, h3, wrapI32_of_inI32 _ hsum, wrapI32_of_inI32 _ hrev]
  rfl

/-- The pixel count of line 242 at some configurations, on every target: the
single-precision value is 52 for 530/1000/100 and 58 for 590/1000/100 (53 and 59 in
exact arithmetic), 0 for 20/820/41 (1 in exact arithmetic) and 100 for
1000/1000/100; with a zero strip length the product is an infinity, or a NaN when
widthX or ledCount is zero too, and the count is what the conversion of the target
gives. -/
theorem computeMachinePixels_examples (tg : Target) :
    computeMachinePixels tg 530 1000 100 = 52 ∧
    computeMachinePixels tg 590 1000 100 = 58 ∧
    computeMachinePixels tg 20 820 41 = 0 ∧
    computeMachinePixels tg 1000 1000 100 = 100 ∧
    machinePixelsFloat 1000 0 100 = Binary32.infinity false ∧
    machinePixelsFloat 0 0 100 = Binary32.nan ∧
    machinePixelsFloat 1000 0 0 = Binary32.nan ∧
    computeMachinePixels tg 1000 0 100 = wrapI32 (tg.outOfRange (Binary32.infinity false)) :=
  ⟨rfl, rfl, rfl, rfl, by decide, by decide, by decide, rfl⟩

/-! ## Claims about the position mapping -/

/-- C16 (as stated, refuted): with widthX = 530, ledStripLength = 1000, 100 pixels,
offset 0, not reversed, and the machine at X = 530, a position inside [0, widthX],
the formula of the claim has machinePixels = floor(530 / 1000 * 100) = 53 and the
position trunc(530 * 52 / 530) = 52; line 242 computes the pixel count in single
precision, where 530/1000 rounds to a float below 0.53 and the product to a float
below 53, so machinePixels is 52, and on every target the centre index, the one
index written, is 51. And in Scenario A, on the example target whose `map` rounds to
nearest, the centre index is 50 where the formula of the claim has
trunc(500 * 99 / 1000) = 49. -/
theorem C16_formula_fails :
    ({ scenarioA with widthX := 530, mPosX := 530 }).InRange ∧
    ({ scenarioA with widthX := 530, mPosX := 530 }).specFinalIndex = 52 ∧
    (∀ tg : Target,
      computeMachinePixels tg 530 1000 100 = 52 ∧
      ({ scenarioA with widthX := 530, mPosX := 530 }).positionIndex tg = 51 ∧
      ({ scenarioA with widthX := 530, mPosX := 530 }).writtenIndices tg = [51]) ∧
    scenarioA.specFinalIndex = 49 ∧
    scenarioA.positionIndex Target.nearest = 50 := by
  refine ⟨by decide, by decide, ?_, by decide, by decide⟩
  intro tg
  obtain ⟨r, e, o⟩ := tg
  cases r <;> exact ⟨rfl, rfl, rfl⟩

/-- C16 (amended): with widthX > 0, ledStripLength > 0 and no overflow in the integer
arithmetic, the centre index that `handleOverlayDraw` computes, for every machine
position (within [0, widthX] or not), is position = q(x * (machinePixels - 1),
widthX) + q(positionOffsetX * ledCount, ledStripLength), taken as it is when
reversePositionX is false and as ledCount - position when it is true. Here
machinePixels is the value of line 242, the single-precision product
((float)widthX/(float)ledStripLength) * ledCount converted to int, and q(n, d) is
the quotient of the target's `map`: trunc(n / d) when it truncates and
trunc((n + trunc(d / 2)) / d) when it rounds to nearest. In state Run or Jog with a
positive indicator width that index is the first index written. -/
theorem C16_position_formula (s : FluidNcUsermod) (tg : Target) (hr : s.InRange)
    (hno : s.NoOverflow tg) (hw : 0 < s.widthX) (hl : 0 < s.ledStripLength) :
    s.positionIndex tg =
      (if s.reversePositionX then
        s.ledCount -
          (tg.rescale.quotient
              (s.mPosX * (computeMachinePixels tg s.widthX s.ledStripLength s.ledCount - 1))
              s.widthX
            + tg.rescale.quotient (s.positionOffsetX * s.ledCount) s.ledStripLength)
      else
        tg.rescale.quotient
            (s.mPosX * (computeMachinePixels tg s.widthX s.ledStripLength s.ledCount - 1))
            s.widthX
          + tg.rescale.quotient (s.positionOffsetX * s.ledCount) s.ledStripLength) ∧
    (∀ n d : Int, Rescale.truncating.quotient n d = Int.tdiv n d ∧
      Rescale.nearest.quotient n d = Int.tdiv (n + Int.tdiv d 2) d) ∧
    (s.Moving → 0 < s.positionLedCount →
      ∃ rest, s.writtenIndices tg = s.positionIndex tg :: rest) := by
  refine ⟨positionIndex_exact s tg hr hno hw hl, fun _ _ => ⟨rfl, rfl⟩, ?_⟩
  intro hm hp
  unfold FluidNcUsermod.writtenIndices
  rw [handleOverlayDraw_of_moving s tg hm, if_pos hp]
  exact ⟨_, rfl⟩

/-- C16 at widthX = 530 and X = 530 reversed, on the example target that truncates:
machinePixels 52, position 51, final index 100 - 51 = 49; and at Scenario A reversed
with offset 0, on the example target that rounds: position 50, which reverses to 50. -/
theorem C16_position_formula_witness :
    ({ scenarioA with widthX := 530, mPosX := 530, reversePositionX := true }).positionIndex
      Target.truncating = 49 ∧
    ({ scenarioA with reversePositionX := true }).positionIndex Target.nearest = 50 := by
  have h1 := (C16_position_formula
    { scenarioA with widthX := 530, mPosX := 530, reversePositionX := true }
    Target.truncating (by decide) (by decide) (by decide) (by decide)).1
  have h2 := (C16_position_formula { scenarioA with reversePositionX := true }
    Target.nearest (by decide) (by decide) (by decide) (by decide)).1
  rw [h1, h2]
  decide
/-- Two sets of members that differ at most in the machine position: the centre index
is monotone in the position. -/
theorem positionIndex_monotone (s1 s2 : FluidNcUsermod) (tg : Target)
    (hwx : s1.widthX = s2.widthX) (hcnt : s1.ledCount = s2.ledCount)
    (hlen : s1.ledStripLength = s2.ledStripLength)
    (hoff : s1.positionOffsetX = s2.positionOffsetX)
    (hrev : s1.reversePositionX = s2.reversePositionX) (hx : s1.mPosX ≤ s2.mPosX)
    (hr1 : s1.InRange) (hr2 : s2.InRange) (hno1 : s1.NoOverflow tg) (hno2 : s2.NoOverflow tg)
    (hw : 0 < s1.widthX) (hl : 0 < s1.ledStripLength)
    (hmp : 1 ≤ computeMachinePixels tg s1.widthX s1.ledStripLength s1.ledCount) :
    (s1.reversePositionX = false → s1.positionIndex tg ≤ s2.positionIndex tg) ∧
    (s1.reversePositionX = true → s2.positionIndex tg ≤ s1.positionIndex tg) := by
  have h1 := positionIndex_exact s1 tg hr1 hno1 hw hl
  have h2 := positionIndex_exact s2 tg hr2 hno2 (hwx ▸ hw) (hlen ▸ hl)
  have hbase : s1.exactBase tg ≤ s2.exactBase tg := by
    unfold FluidNcUsermod.exactBase
    rw [← hwx, ← hcnt, ← hlen]
    apply quotient_mono _ _ _ _ (by omega)
    exact Int.mul_le_mul_of_nonneg_right hx (by omega)
  have hoffeq : s2.exactOffset tg = s1.exactOffset tg := by
    unfold FluidNcUsermod.exactOffset
    rw [hoff, hcnt, hlen]
  unfold FluidNcUsermod.exactFinalIndex at h1 h2
  rw [← hrev, ← hcnt, hoffeq] at h2
  rw [h1, h2]
  constructor
  · intro hr
    rw [hr]
    simp only [Bool.false_eq_true, if_false]
    omega
  · intro hr
    rw [hr]
    simp only [if_true]
    omega

/-- C19: for a fixed configuration with widthX > 0, ledStripLength > 0 and a pixel count
machinePixels (the value computed on line 242) of at least 1, on every target, and
two machine positions x1 <= x2 for which the integer arithmetic does not overflow,
the centre index that `handleOverlayDraw` computes for x1 is at most the one for x2
when reversePositionX is false, and at least the one for x2 when it is true. -/
theorem C19_position_monotone (s : FluidNcUsermod) (tg : Target) (x1 x2 : Int) (hx : x1 ≤ x2)
    (hr1 : ({ s with mPosX := x1 }).InRange) (hr2 : ({ s with mPosX := x2 }).InRange)
    (hno1 : ({ s with mPosX := x1 }).NoOverflow tg)
    (hno2 : ({ s with mPosX := x2 }).NoOverflow tg)
    (hw : 0 < s.widthX) (hl : 0 < s.ledStripLength)
    (hmp : 1 ≤ computeMachinePixels tg s.widthX s.ledStripLength s.ledCount) :
    (s.reversePositionX = false →
      ({ s with mPosX := x1 }).positionIndex tg ≤ ({ s with mPosX := x2 }).positionIndex tg) ∧
    (s.reversePositionX = true →
      ({ s with mPosX := x2 }).positionIndex tg ≤ ({ s with mPosX := x1 }).positionIndex tg) :=
  positionIndex_monotone { s with mPosX := x1 } { s with mPosX := x2 } tg rfl rfl rfl rfl rfl hx
    hr1 hr2 hno1 hno2 hw hl hmp

/-- C19 at the configuration of Scenario A and the positions -500 and 2000, on the
example target that rounds to nearest, and reversed on the one that truncates. -/
theorem C19_position_monotone_witness :
    ({ scenarioA with mPosX := -500 }).positionIndex Target.nearest
      ≤ ({ scenarioA with mPosX := 2000 }).positionIndex Target.nearest ∧
    ({ scenarioA with reversePositionX := true, mPosX := 2000 }).positionIndex
        Target.truncating
      ≤ ({ scenarioA with reversePositionX := true, mPosX := -500 }).positionIndex
        Target.truncating :=
  ⟨(C19_position_monotone scenarioA Target.nearest (-500) 2000 (by decide) (by decide)
      (by decide) (by decide) (by decide) (by decide) (by decide) (by decide)).1 rfl,
   (C19_position_monotone { scenarioA with reversePositionX := true } Target.truncating
      (-500) 2000 (by decide) (by decide) (by decide) (by decide) (by decide) (by decide)
      (by decide) (by decide)).2 rfl⟩

/-- Where the pixel count of line 242 is 0, the position is rescaled to [0, -1] and
the centre index falls as the position rises: with widthX = 20, ledStripLength = 820
and 41 pixels the exact count 20 * 41 / 820 is 1, the single-precision count is 0,
and the centre index is 0 for X = 0 and, for X = 40, -2 where `map` truncates and -1
where it rounds to nearest. -/
theorem positionIndex_falls_without_pixels (tg : Target) :
    computeMachinePixels tg 20 820 41 = 0 ∧
    ({ narrowMachine with mPosX := 0 }).positionIndex tg = 0 ∧
    ({ narrowMachine with mPosX := 40 }).positionIndex tg =
      match tg.rescale with
      | Rescale.truncating => -2
      | Rescale.nearest => -1 := by
  obtain ⟨r, e, o⟩ := tg
  cases r <;> exact ⟨rfl, rfl, rfl⟩

/-! ## Claims about the pixel writes -/

theorem toU32_wrapI32 (x : Int) : toU32 (wrapI32 x) = toU32 x := by
  unfold toU32 wrapI32
  split <;> congr 1 <;> omega

theorem mem_spreadBody (p : Int) (widthX i : Nat) (x : PixelWrite) :
    x ∈ spreadBody p widthX i ↔
      x.colour = RGBW32 255 255 255 255 ∧
      ((x.index = wrapI32 (p - i) ∧ 0 ≤ wrapI32 (p - i)) ∨
        (x.index = wrapI32 (p + i) ∧ toU32 (p + i) ≤ widthX)) := by
  obtain ⟨idx, col⟩ := x
  unfold spreadBody
  rw [toU32_wrapI32]
  by_cases h1 : wrapI32 (p - i) ≥ 0 <;> by_cases h2 : toU32 (p + i) ≤ widthX <;>
    simp only [h1, h2, if_true, if_false, List.mem_append, List.mem_singleton,
      List.not_mem_nil, PixelWrite.mk.injEq, ge_iff_le, and_true, and_false, or_false,
      false_or] <;> constructor <;> intro h
  · rcases h with ⟨ha, hb⟩ | ⟨ha, hb⟩
    · exact ⟨hb, Or.inl ha⟩
    · exact ⟨hb, Or.inr ha⟩
  · rcases h with ⟨hb, ha | ha⟩
    · exact Or.inl ⟨ha, hb⟩
    · exact Or.inr ⟨ha, hb⟩
  · exact ⟨h.2, h.1⟩
  · exact ⟨h.2, h.1⟩
  · exact ⟨h.2, h.1⟩
  · exact ⟨h.2, h.1⟩

/-- C17: in state Run or Jog with positionLedCount >= 1, final index p and half-width h
(p - h and p + h within the range of `int`), `handleOverlayDraw` makes exactly these
pixel writes: the centre p, every p - i with 1 <= i <= h and p - i >= 0, and every
p + i with 1 <= i <= h that passes the upper check (p + i, as unsigned, is at most
widthX); every write has the colour RGBW32(255,255,255,255), which is 0xFFFFFFFF, and
every index written lies in [p - h, p + h]. -/
theorem C17_pixel_writes (s : FluidNcUsermod) (tg : Target) (p : Int) (hm : s.Moving)
    (hpos : 1 ≤ s.positionLedCount) (hp : s.positionIndex tg = p)
    (hlo : -2147483648 ≤ p - s.halfWidth) (hhi : p + s.halfWidth < 2147483648) :
    ∃ writes, s.pixelWrites tg = writes ∧
      (∀ x, x ∈ writes ↔
        x.colour = RGBW32 255 255 255 255 ∧
        (x.index = p ∨ ∃ i : Nat, 1 ≤ i ∧ i ≤ s.halfWidth ∧
          ((x.index = p - i ∧ 0 ≤ p - (i : Int)) ∨
            (x.index = p + i ∧ toU32 (p + i) ≤ s.widthX)))) ∧
      (∀ x ∈ writes, x.colour = 4294967295 ∧
        p - s.halfWidth ≤ x.index ∧ x.index ≤ p + s.halfWidth) := by
  have hdraw := handleOverlayDraw_of_moving s tg hm
  rw [if_pos (by omega), hp] at hdraw
  have hwrap : ∀ i : Nat, i ≤ s.halfWidth →
      wrapI32 (p - i) = p - i ∧ wrapI32 (p + i) = p + i := by
    intro i hi
    exact ⟨wrapI32_of_range _ (by omega) (by omega), wrapI32_of_range _ (by omega) (by omega)⟩
  have hmem : ∀ x, x ∈ ({ index := p, colour := RGBW32 255 255 255 255 } ::
      spreadLoop p s.widthX 1 s.halfWidth : List PixelWrite) ↔
        x.colour = RGBW32 255 255 255 255 ∧
        (x.index = p ∨ ∃ i : Nat, 1 ≤ i ∧ i ≤ s.halfWidth ∧
          ((x.index = p - i ∧ 0 ≤ p - (i : Int)) ∨
            (x.index = p + i ∧ toU32 (p + i) ≤ s.widthX))) := by
    intro x
    rw [spreadLoop_eq_flatMap, List.mem_cons, List.mem_flatMap]
    constructor
    · rintro (h | ⟨i, hi, hx⟩)
      · subst h
        exact ⟨rfl, Or.inl rfl⟩
      · rw [List.mem_range'_1] at hi
        have hile : i ≤ s.halfWidth := by omega
        rw [mem_spreadBody, (hwrap i hile).1, (hwrap i hile).2] at hx
        exact ⟨hx.1, Or.inr ⟨i, hi.1, hile, hx.2⟩⟩
    · rintro ⟨hc, h | ⟨i, hi1, hi2, h⟩⟩
      · left
        obtain ⟨idx, col⟩ := x
        simp only at hc h
        rw [hc, h]
      · right
        refine ⟨i, ?_, ?_⟩
        · rw [List.mem_range'_1]
          omega
        · rw [mem_spreadBody, (hwrap i hi2).1, (hwrap i hi2).2]
          exact ⟨hc, h⟩
  refine ⟨_, ?_, hmem, ?_⟩
  · unfold FluidNcUsermod.pixelWrites
    rw [hdraw]
    rfl
  · intro x hx
    obtain ⟨hc, h⟩ := (hmem x).mp hx
    refine ⟨by rw [hc]; rfl, ?_⟩
    rcases h with h | ⟨i, hi1, hi2, ⟨h, _⟩ | ⟨h, _⟩⟩ <;> rw [h] <;> omega

/-- C17 at Scenario A with the indicator width 4 and the machine at X = 10: final index 0
and half-width 2; the writes are white and lie in [-2, 2]. -/
theorem C17_pixel_writes_witness :
    ∃ writes, ({ scenarioA with mPosX := 10, positionLedCount := 4 }).pixelWrites
        Target.truncating = writes ∧
      (∀ x ∈ writes, x.colour = 4294967295 ∧ -2 ≤ x.index ∧ x.index ≤ 2) := by
  obtain ⟨writes, h1, _, h3⟩ :=
    C17_pixel_writes { scenarioA with mPosX := 10, positionLedCount := 4 } Target.truncating
      0 (by decide) (by decide) (by decide) (by decide) (by decide)
  have hh : ({ scenarioA with mPosX := 10, positionLedCount := 4 }).halfWidth = 2 := by decide
  refine ⟨writes, h1, fun x hx => ?_⟩
  have h := h3 x hx
  rw [hh] at h
  exact ⟨h.1, by omega, by omega⟩

end FluidNC
